import Mathlib

/-!
Verification of the sdgen schema-driven code generator.

This file shallowly embeds the parts of `src/sdgen` that the checked
claims are about:

* the six fixed-width integer kinds of `model.py` (`i8` … `u32`);
* the type-descriptor helpers of `utils.py`
  (`is_list_type`, `is_optional_type`, `unwrap_list`, `unwrap_optional`);
* XML serialization and deserialization of `model.py`
  (`to_xml_tree`, `from_xml_tree`), the native-tree round trip
  (`to_native_tree` / `model_dump`, `from_native_tree` / `model_validate`)
  and the XSD emitter (`to_xsd`);
* the per-language type-mapping functions and `generate_definition`
  line builders of the six language adapters.

Python runtime type annotations are embedded as the inductive `PyType`;
runtime values as `Value`.  The pydantic validation layer is external to
the repository and is modelled from the spec where needed (marked
`Modelled from the spec:` on the definitions).

The recursive Python functions are embedded with an explicit `fuel`
argument bounding recursion depth (running out of fuel yields an error
or a neutral value, and theorems either quantify over the fuel or are
conditional on a successful result); the Python originals recurse
without such a bound.
-/

/-- The six fixed-width integer kinds declared in `model.py`. -/
inductive IntKind where
  | i8 | u8 | i16 | u16 | i32 | u32
deriving DecidableEq

/-- `class i8(_sdgenint)`: `__new__` converts to int and range-checks
`-128 <= value <= 127`, raising `ValueError` otherwise (`model.py:40`). -/
def i8_new (v : Int) : Except String Int :=
  if -128 ≤ v ∧ v ≤ 127 then .ok v else .error "Value out of range for i8"

/-- `class u8(_sdgenint)`: range `0 <= value <= 255` (`model.py:48`). -/
def u8_new (v : Int) : Except String Int :=
  if 0 ≤ v ∧ v ≤ 255 then .ok v else .error "Value out of range for u8"

/-- `class i16(_sdgenint)`: range `-32768 <= value <= 32767` (`model.py:56`). -/
def i16_new (v : Int) : Except String Int :=
  if -32768 ≤ v ∧ v ≤ 32767 then .ok v else .error "Value out of range for i16"

/-- `class u16(_sdgenint)`: range `0 <= value <= 65535` (`model.py:64`). -/
def u16_new (v : Int) : Except String Int :=
  if 0 ≤ v ∧ v ≤ 65535 then .ok v else .error "Value out of range for u16"

/-- `class i32(_sdgenint)`: range `-2147483648 <= value <= 2147483647`
(`model.py:72`). -/
def i32_new (v : Int) : Except String Int :=
  if -2147483648 ≤ v ∧ v ≤ 2147483647 then .ok v
  else .error "Value out of range for i32"

/-- `class u32(_sdgenint)`: range `0 <= value <= 4294967295` (`model.py:80`). -/
def u32_new (v : Int) : Except String Int :=
  if 0 ≤ v ∧ v ≤ 4294967295 then .ok v
  else .error "Value out of range for u32"

/-- Constructor dispatch over the six fixed-width classes. -/
def kNew : IntKind → Int → Except String Int
  | .i8, v => i8_new v
  | .u8, v => u8_new v
  | .i16, v => i16_new v
  | .u16, v => u16_new v
  | .i32, v => i32_new v
  | .u32, v => u32_new v

/-- Declared inclusive lower bound of each kind (literals of `model.py`). -/
def kMin : IntKind → Int
  | .i8 => -128 | .u8 => 0 | .i16 => -32768
  | .u16 => 0 | .i32 => -2147483648 | .u32 => 0

/-- Declared inclusive upper bound of each kind (literals of `model.py`). -/
def kMax : IntKind → Int
  | .i8 => 127 | .u8 => 255 | .i16 => 32767
  | .u16 => 65535 | .i32 => 2147483647 | .u32 => 4294967295

/-- `__name__` of each fixed-width class. -/
def kindName : IntKind → String
  | .i8 => "i8" | .u8 => "u8" | .i16 => "i16"
  | .u16 => "u16" | .i32 => "i32" | .u32 => "u32"

/-- Embedding of the Python type annotations the generator manipulates:
primitives, the six fixed-width integer classes, `List[...]`,
`Optional[...]` (one level, per the model invariant) and nested pydantic
record models (`tModel name fields`). -/
inductive PyType where
  | tStr
  | tInt
  | tFloat
  | tBool
  | fixed (k : IntKind)
  | tList (elem : PyType)
  | tOptional (inner : PyType)
  | tModel (nm : String) (fields : List (String × PyType))

/-- Field lists of a record model: ordered `(name, annotation)` pairs,
as produced by `model_fields` iteration. -/
abbrev Fields := List (String × PyType)

/-- `utils.is_list_type`: `get_origin(annotation) is list`. -/
def is_list_type : PyType → Bool
  | .tList _ => true
  | _ => false

/-- `utils.is_optional_type`: origin is `Union` containing `NoneType`;
in the embedding `Optional` is the only such union (one level, per the
model invariant). -/
def is_optional_type : PyType → Bool
  | .tOptional _ => true
  | _ => false

/-- `utils.unwrap_list`: the element type of a `List`, the annotation
itself otherwise. -/
def unwrap_list : PyType → PyType
  | .tList e => e
  | t => t

/-- `utils.unwrap_optional`: the first non-`None` union argument of an
`Optional`, the annotation itself otherwise. -/
def unwrap_optional : PyType → PyType
  | .tOptional i => i
  | t => t

/-- C9: the type-descriptor helpers are total normalization helpers:
`unwrap_optional`/`unwrap_list` return the inner descriptor on the
matching variant and the descriptor unchanged otherwise, and
`is_optional_type`/`is_list_type` decide exactly those variants. -/
theorem utils_helpers_characterization (td : PyType) :
    (∀ t, td = .tOptional t → unwrap_optional td = t) ∧
    (is_optional_type td = false → unwrap_optional td = td) ∧
    (∀ t, td = .tList t → unwrap_list td = t) ∧
    (is_list_type td = false → unwrap_list td = td) ∧
    (is_optional_type td = true ↔ ∃ t, td = .tOptional t) ∧
    (is_list_type td = true ↔ ∃ t, td = .tList t) := by
  cases td <;>
    simp [unwrap_optional, unwrap_list, is_optional_type, is_list_type]

/-- Witness for `utils_helpers_characterization` at a concrete descriptor. -/
theorem utils_helpers_characterization_witness :
    unwrap_optional (.tOptional .tInt) = .tInt ∧
    unwrap_list (.tOptional .tInt) = .tOptional .tInt := by
  have h := utils_helpers_characterization (.tOptional .tInt)
  exact ⟨h.1 .tInt rfl, h.2.2.2.1 rfl⟩

/-- Embedding of the Python runtime values stored in model instances and
native trees: `None`, strings, integers (plain and fixed-width), lists,
plain dicts (native trees / parsed JSON and YAML objects) and validated
model instances. -/
inductive Value where
  | vNone
  | vStr (s : String)
  | vInt (n : Int)
  | vList (xs : List Value)
  | vDict (kvs : List (String × Value))
  | vModel (kvs : List (String × Value))

/-- A model instance: its ordered attribute map. -/
abbrev Inst := List (String × Value)

/-- Dictionary lookup (first match wins; Python dicts have at most one
entry per key). -/
def pyLookup (kvs : List (String × Value)) (n : String) : Option Value :=
  (kvs.find? (fun kv => kv.1 == n)).map Prod.snd

/-- `getattr(self, name, None)` over an instance attribute map. -/
def pyGetattr (inst : Inst) (n : String) : Value :=
  (pyLookup inst n).getD .vNone

/-- Python `int(value)` as used by `_sdgenint`'s validator and by the
fixed-width `__new__`s: ints pass through, numeric strings parse,
`None` raises `TypeError`. -/
def pyIntCoerce : Value → Except String Int
  | .vInt n => .ok n
  | .vStr s =>
    match s.toInt? with
    | some n => .ok n
    | none => .error ("invalid literal for int() with base 10: " ++ s)
  | .vNone => .error "int() argument must not be NoneType"
  | _ => .error "int() argument must be a string or a real number"

mutual

/-- Modelled from the spec: pydantic per-field validation (the external
Schema Model collaborator of spec section 6): type-checked coercion with
range validation on fixed-width integers.  `Optional` admits `None`,
strings must be strings, ints coerce from numeric strings, fixed-width
kinds run the `_sdgenint` validator from `model.py` (`int(value)` then
the class `__new__` range check), lists validate element-wise, nested
model instances pass through unrevalidated and dicts validate
recursively.  Float and bool validation are outside this embedding. -/
def validateField : Nat → PyType → Value → Except String Value
  | 0, _, _ => .error "recursion limit exceeded"
  | fuel + 1, .tOptional t, v =>
    match v with
    | .vNone => .ok .vNone
    | v => validateField fuel t v
  | _ + 1, .tStr, v =>
    match v with
    | .vStr s => .ok (.vStr s)
    | _ => .error "Input should be a valid string"
  | _ + 1, .tInt, v =>
    match v with
    | .vInt n => .ok (.vInt n)
    | .vStr s =>
      match s.toInt? with
      | some n => .ok (.vInt n)
      | none => .error "Input should be a valid integer"
    | _ => .error "Input should be a valid integer"
  | _ + 1, .fixed k, v => do
    let n ← pyIntCoerce v
    let m ← kNew k n
    .ok (.vInt m)
  | fuel + 1, .tList t, v =>
    match v with
    | .vList xs => (validateList fuel t xs).map .vList
    | _ => .error "Input should be a valid list"
  | fuel + 1, .tModel _ fs, v =>
    match v with
    | .vModel kvs => .ok (.vModel kvs)
    | .vDict kvs => (validateInstAux fuel fs kvs).map .vModel
    | _ => .error "Input should be a valid dictionary or model instance"
  | _ + 1, .tFloat, _ => .error "float fields are outside this embedding"
  | _ + 1, .tBool, _ => .error "bool fields are outside this embedding"

/-- Modelled from the spec: element-wise validation of a `List` field. -/
def validateList : Nat → PyType → List Value → Except String (List Value)
  | 0, _, _ => .error "recursion limit exceeded"
  | _ + 1, _, [] => .ok []
  | fuel + 1, t, x :: xs => do
    let v ← validateField fuel t x
    let vs ← validateList fuel t xs
    .ok (v :: vs)

/-- Modelled from the spec: field-by-field validation of the keyword
arguments against the model's ordered fields (missing key: pydantic
`Field required`). -/
def validateFields :
    Nat → Fields → List (String × Value) → Except String (List (String × Value))
  | 0, _, _ => .error "recursion limit exceeded"
  | _ + 1, [], _ => .ok []
  | fuel + 1, (n, t) :: rest, kvs => do
    let v ←
      (match pyLookup kvs n with
       | none => .error ("Field required: " ++ n)
       | some v0 => validateField fuel t v0)
    let out ← validateFields fuel rest kvs
    .ok ((n, v) :: out)

/-- Modelled from the spec: pydantic `model_validate` on a dict for a
model created with `extra="forbid"`: unknown keys are rejected, then the
fields validate in declaration order. -/
def validateInstAux :
    Nat → Fields → List (String × Value) → Except String (List (String × Value))
  | 0, _, _ => .error "recursion limit exceeded"
  | fuel + 1, fs, kvs =>
    if kvs.all (fun kv => fs.any (fun f => f.1 == kv.1)) then
      validateFields fuel fs kvs
    else .error "Extra inputs are not permitted"

end

/-- `DataStructureModelClass.from_native_tree`: `model_validate` over a
parsed native tree (a dict at top level); `from_json` / `from_yaml`
parse the text into exactly such a tree first. -/
def from_native_tree (fuel : Nat) (fs : Fields) (d : Value) :
    Except String Inst :=
  match d with
  | .vDict kvs => validateInstAux fuel fs kvs
  | _ => .error "Input should be a valid dictionary"

mutual

/-- Modelled from the spec: pydantic `model_dump`: a model instance
becomes a plain dict tree, containers recurse, scalars are unchanged. -/
def dumpValue : Nat → Value → Value
  | 0, v => v
  | fuel + 1, .vModel kvs => .vDict (dumpKvs fuel kvs)
  | fuel + 1, .vDict kvs => .vDict (dumpKvs fuel kvs)
  | fuel + 1, .vList xs => .vList (dumpList fuel xs)
  | _ + 1, v => v

def dumpKvs : Nat → List (String × Value) → List (String × Value)
  | 0, kvs => kvs
  | _ + 1, [] => []
  | fuel + 1, (n, v) :: rest => (n, dumpValue fuel v) :: dumpKvs fuel rest

def dumpList : Nat → List Value → List Value
  | 0, xs => xs
  | _ + 1, [] => []
  | fuel + 1, x :: xs => dumpValue fuel x :: dumpList fuel xs

end

/-- `DataStructureModelClass.to_native_tree` / `model_dump` of an
instance; `to_json` / `model_dump_json` produces the same tree rendered
as JSON text, with `None`-valued fields present as explicit `null`s. -/
def to_native_tree (fuel : Nat) (inst : Inst) : Value :=
  .vDict (dumpKvs fuel inst)

theorem kNew_in_range {k : IntKind} {v : Int}
    (h1 : kMin k ≤ v) (h2 : v ≤ kMax k) : kNew k v = .ok v := by
  cases k <;>
    simp_all [kNew, kMin, kMax, i8_new, u8_new, i16_new, u16_new, i32_new,
      u32_new]

theorem kNew_out_of_range {k : IntKind} {v : Int}
    (h : v < kMin k ∨ kMax k < v) :
    kNew k v = .error ("Value out of range for " ++ kindName k) := by
  cases k <;>
    simp_all [kNew, kMin, kMax, kindName, i8_new, u8_new, i16_new, u16_new,
      i32_new, u32_new] <;>
    omega

/-- C1: for each fixed-width kind with declared range `[kMin k, kMax k]`,
construction succeeds and returns the value exactly on in-range inputs
and raises the `ValueError` range message otherwise, and pydantic field
validation behaves identically for a scalar field of that kind and for
an element of a `List` field of that kind. -/
theorem fixed_width_range_validation (k : IntKind) (v : Int) (fuel : Nat) :
    (kMin k ≤ v ∧ v ≤ kMax k →
      kNew k v = .ok v ∧
      validateField (fuel + 3) (.fixed k) (.vInt v) = .ok (.vInt v) ∧
      validateField (fuel + 3) (.tList (.fixed k)) (.vList [.vInt v]) =
        .ok (.vList [.vInt v])) ∧
    (v < kMin k ∨ kMax k < v →
      kNew k v = .error ("Value out of range for " ++ kindName k) ∧
      validateField (fuel + 3) (.fixed k) (.vInt v) =
        .error ("Value out of range for " ++ kindName k) ∧
      validateField (fuel + 3) (.tList (.fixed k)) (.vList [.vInt v]) =
        .error ("Value out of range for " ++ kindName k)) := by
  constructor
  · rintro ⟨h1, h2⟩
    have hk := kNew_in_range h1 h2
    refine ⟨hk, ?_, ?_⟩ <;>
      simp [validateField, validateList, pyIntCoerce, hk, Bind.bind,
        Except.bind, Except.map]
  · intro h
    have hk := kNew_out_of_range h
    refine ⟨hk, ?_, ?_⟩ <;>
      simp [validateField, validateList, pyIntCoerce, hk, Bind.bind,
        Except.bind, Except.map]

/-- Witness for `fixed_width_range_validation`: u16 accepts 65535 (also
as a scalar field and a list element) and rejects 65536 with the range
`ValueError`. -/
theorem fixed_width_range_validation_witness :
    kNew .u16 65535 = .ok 65535 ∧
    validateField 3 (.fixed .u16) (.vInt 65535) = .ok (.vInt 65535) ∧
    kNew .u16 65536 = .error ("Value out of range for " ++ kindName .u16) := by
  refine ⟨((fixed_width_range_validation .u16 65535 0).1 (by decide)).1,
    ((fixed_width_range_validation .u16 65535 0).1 (by decide)).2.1,
    ((fixed_width_range_validation .u16 65536 0).2 (by decide)).1⟩

/-- An `xml.etree.ElementTree.Element`: tag, text (the text content
before any child; `None` when absent, as in a parsed empty element) and
the list of child elements. -/
inductive Xml where
  | elem (tag : String) (txt : Option String) (children : List Xml)

def Xml.tagOf : Xml → String
  | .elem t _ _ => t

def Xml.textOf : Xml → Option String
  | .elem _ s _ => s

def Xml.childrenOf : Xml → List Xml
  | .elem _ _ cs => cs

/-- `element.find(name)`: the first direct child with the given tag. -/
def findChild (x : Xml) (n : String) : Option Xml :=
  (Xml.childrenOf x).find? (fun c => Xml.tagOf c == n)

/-- `__name__` of the runtime class denoted by an annotation (used for
item-tag checks and item tags; `Optional`/`List` annotations have no
`__name__` in Python and are never reached on validated schemas). -/
def typeName : PyType → String
  | .tStr => "str"
  | .tInt => "int"
  | .tFloat => "float"
  | .tBool => "bool"
  | .fixed k => kindName k
  | .tList _ => "list"
  | .tOptional _ => "Optional"
  | .tModel nm _ => nm

mutual

/-- Python `repr`: strings quoted, `None`/ints as printed, lists
bracketed; pydantic models render as their `__str__`. -/
def pyRepr : Nat → Value → String
  | 0, _ => ""
  | _ + 1, .vNone => "None"
  | _ + 1, .vStr s => "\x27" ++ s ++ "\x27"
  | _ + 1, .vInt n => toString n
  | fuel + 1, .vList xs => "[" ++ pyReprJoin fuel xs ++ "]"
  | _ + 1, .vDict _ => "\x7b...\x7d"
  | fuel + 1, .vModel kvs => pyModelStr fuel kvs

def pyReprJoin : Nat → List Value → String
  | 0, _ => ""
  | _ + 1, [] => ""
  | fuel + 1, [x] => pyRepr fuel x
  | fuel + 1, x :: xs => pyRepr fuel x ++ ", " ++ pyReprJoin fuel xs

/-- pydantic `BaseModel.__str__`: space-joined `field=repr(value)`. -/
def pyModelStr : Nat → List (String × Value) → String
  | 0, _ => ""
  | _ + 1, [] => ""
  | fuel + 1, [(n, v)] => n ++ "=" ++ pyRepr fuel v
  | fuel + 1, (n, v) :: rest => n ++ "=" ++ pyRepr fuel v ++ " " ++ pyModelStr fuel rest

end

/-- Python `str(value)`: like `repr` but strings unquoted. -/
def pyStr (fuel : Nat) : Value → String
  | .vStr s => s
  | .vNone => "None"
  | .vInt n => toString n
  | .vList xs => pyRepr fuel (.vList xs)
  | .vDict kvs => pyRepr fuel (.vDict kvs)
  | .vModel kvs => pyModelStr fuel kvs

/-- `item.__class__.__name__` for a validated list item of declared
element type `it` (validated items have exactly the declared class). -/
def itemTag (it : PyType) (v : Value) : String :=
  match v with
  | .vNone => "NoneType"
  | .vStr _ => "str"
  | .vList _ => "list"
  | .vDict _ => "dict"
  | _ => typeName (unwrap_optional it)

/-- `actual_type(sub_element.text)` for a scalar annotation: `str(None)`
is the string `"None"`; `int(None)` raises `TypeError`; `int(text)`
parses decimal text; fixed-width classes parse then range-check.
Float and bool coercion are outside this embedding (no claim uses them). -/
def coerceText : PyType → Option String → Except String Value
  | .tStr, txt =>
    .ok (.vStr (match txt with | some s => s | none => "None"))
  | .tInt, txt =>
    match txt with
    | none => .error "int() argument must not be NoneType"
    | some s =>
      match s.toInt? with
      | some m => .ok (.vInt m)
      | none => .error ("invalid literal for int() with base 10: " ++ s)
  | .fixed k, txt =>
    match txt with
    | none => .error "int() argument must not be NoneType"
    | some s =>
      match s.toInt? with
      | some m => (kNew k m).map .vInt
      | none => .error ("invalid literal for int() with base 10: " ++ s)
  | .tFloat, _ => .error "float fields are outside this embedding"
  | .tBool, _ => .error "bool fields are outside this embedding"
  | _, _ => .error "unsupported scalar annotation"

mutual

/-- `DataStructureModelClass.to_xml_tree` (`model.py:222`): a root
element named after the model with one child per field in field order.
The Python function never raises for validated instances; the `Except`
layer only reports fuel exhaustion, so an `.ok` result is an
untruncated serialization. -/
def to_xml_tree : Nat → String → Fields → Inst → Except String Xml
  | 0, _, _, _ => .error "recursion limit exceeded"
  | fuel + 1, nm, fs, inst => (emitFields fuel fs inst).map (Xml.elem nm none)

def emitFields : Nat → Fields → Inst → Except String (List Xml)
  | 0, _, _ => .error "recursion limit exceeded"
  | _ + 1, [], _ => .ok []
  | fuel + 1, (n, t) :: rest, inst => do
    let c ← emitField fuel n (unwrap_optional t) (pyGetattr inst n)
    let cs ← emitFields fuel rest inst
    .ok (c :: cs)

/-- One field of `to_xml_tree`, on the optional-unwrapped annotation:
a `List` field gets a wrapper element named after the field with one
child per item (no children when the value is `None`); every other
field — scalars AND nested-model fields, because the annotations of
`cls._model()` are original pydantic models, never
`DataStructureModelClass` subclasses, so the `issubclass` branch at
`model.py:249` is dead — becomes a leaf element named after the field
with text `str(value)` (the empty string for `None`). -/
def emitField : Nat → String → PyType → Value → Except String Xml
  | 0, _, _, _ => .error "recursion limit exceeded"
  | fuel + 1, n, actual, v =>
    match actual with
    | .tList item =>
      (match v with
       | .vList xs => (emitItems fuel item xs).map (Xml.elem n none)
       | _ => .ok (.elem n none []))
    | _ =>
      .ok
        (.elem n
          (some
            (match v with
             | .vNone => ""
             | v => pyStr fuel v)) [])

/-- List items: model instances recurse into `to_xml_tree`; other items
become `Element(item.__class__.__name__)` with text `str(item)`. -/
def emitItems : Nat → PyType → List Value → Except String (List Xml)
  | 0, _, _ => .error "recursion limit exceeded"
  | _ + 1, _, [] => .ok []
  | fuel + 1, it, v :: rest => do
    let c ←
      (match it, v with
       | .tModel nm2 fs2, .vModel kvs => to_xml_tree fuel nm2 fs2 kvs
       | _, _ => .ok (.elem (itemTag it v) (some (pyStr fuel v)) []))
    let cs ← emitItems fuel it rest
    .ok (c :: cs)

end

mutual

/-- `DataStructureModelClass.from_xml_tree` (`model.py:121`): build the
`values` map field by field, then `cls(**values)` validates it against
the model (a `DataStructureModel`-created class with `extra="forbid"`). -/
def from_xml_tree : Nat → Fields → Xml → Except String Inst
  | 0, _, _ => .error "recursion limit exceeded"
  | fuel + 1, fs, x => do
    let vals ← parseFields fuel fs x
    validateInstAux (fuel + 1) fs vals

def parseFields : Nat → Fields → Xml → Except String (List (String × Value))
  | 0, _, _ => .error "recursion limit exceeded"
  | _ + 1, [], _ => .ok []
  | fuel + 1, (n, t) :: rest, x => do
    let v ← parseField fuel n (unwrap_optional t) x
    let vs ← parseFields fuel rest x
    .ok ((n, v) :: vs)

/-- One field of `from_xml_tree`, on the optional-unwrapped annotation:
`tList` is the `is_list_type` branch (missing wrapper leaves the field
`None`, a found wrapper parses its children); `tModel` is the
`issubclass(..., BaseModel)` branch (recursive parse when the element is
found); `tOptional` (a non-class typing construct) fails the
`isinstance(actual_type, type)` test and leaves the field `None`;
anything else is the scalar branch coercing the element text. -/
def parseField : Nat → String → PyType → Xml → Except String Value
  | 0, _, _, _ => .error "recursion limit exceeded"
  | fuel + 1, n, actual, x =>
    match actual with
    | .tList item =>
      match findChild x n with
      | none => .ok .vNone
      | some w => (parseItems fuel n item (Xml.childrenOf w)).map .vList
    | .tModel _ fs2 =>
      match findChild x n with
      | none => .ok .vNone
      | some sub => (from_xml_tree fuel fs2 sub).map .vModel
    | .tOptional _ => .ok .vNone
    | sc =>
      match findChild x n with
      | none => .ok .vNone
      | some sub => coerceText sc (Xml.textOf sub)

/-- List items of `from_xml_tree`: each child's tag must equal the
declared element type's `__name__`, else
`ValueError("Expected item of type ... but found ...")`; matching model
items recurse into `from_xml_tree`, other items coerce their text. -/
def parseItems : Nat → String → PyType → List Xml → Except String (List Value)
  | 0, _, _, _ => .error "recursion limit exceeded"
  | _ + 1, _, _, [] => .ok []
  | fuel + 1, fieldName, it, c :: rest =>
    if Xml.tagOf c == typeName it then do
      let v ←
        (match it with
         | .tModel _ fs2 => (from_xml_tree fuel fs2 c).map .vModel
         | sc => coerceText sc (Xml.textOf c))
      let vs ← parseItems fuel fieldName it rest
      .ok (v :: vs)
    else
      .error ("Expected item of type " ++ typeName it ++ " in field " ++
        fieldName ++ ", but found " ++ Xml.tagOf c)

end

/-- An `xs:element` declaration inside a complex type's sequence:
`name`, `type`, and the optional `minOccurs` / `maxOccurs` attributes
passed to `SubElement` in `to_xsd`. -/
structure XsdElem where
  elName : String
  typeRef : String
  minOccurs : Option String
  maxOccurs : Option String
deriving DecidableEq

/-- An `xs:complexType` declaration: its `name` attribute and the
`xs:element` children of its `xs:sequence`. -/
structure XsdComplexType where
  ctName : String
  seq : List XsdElem
deriving DecidableEq

/-- The `complex_types` dict of `to_xsd`: insertion-ordered, keyed by
`m.__name__`. -/
abbrev XsdAcc := List (String × XsdComplexType)

/-- `_pytype_to_xsd` (`model.py:376`): ints and the six fixed-width
kinds map to `xs:int`, float to `xs:double`, str to `xs:string`,
anything else falls back to `xs:string`. -/
def _pytype_to_xsd : PyType → String
  | .tInt => "xs:int"
  | .fixed _ => "xs:int"
  | .tFloat => "xs:double"
  | .tStr => "xs:string"
  | _ => "xs:string"

/-- The nested-model discovery of one `to_xsd` field: unwrap `Optional`
once (only when `is_optional_type`), unwrap `List` once (only when
`is_list_type`), and recurse exactly when the result is a pydantic
model (`process_model(item_type)` / `process_model(annotation)`). -/
def fieldRecord (t : PyType) : Option (String × Fields) :=
  let t1 := if is_optional_type t then unwrap_optional t else t
  let t2 := if is_list_type t1 then unwrap_list t1 else t1
  match t2 with
  | .tModel nm fs => some (nm, fs)
  | _ => none

/-- The `xs:element` that `process_model` emits for one field:
(optionally `Optional`-unwrapped) `List` fields get
`minOccurs="0" maxOccurs="unbounded"` and the element/`_pytype_to_xsd`
type of their item; all other fields get `minOccurs="0"` and the
model-`Type` or `_pytype_to_xsd` type. -/
def xsdElemFor (n : String) (t : PyType) : XsdElem :=
  let t1 := if is_optional_type t then unwrap_optional t else t
  if is_list_type t1 then
    match unwrap_list t1 with
    | .tModel nm2 _ => ⟨n, nm2 ++ "Type", some "0", some "unbounded"⟩
    | it => ⟨n, _pytype_to_xsd it, some "0", some "unbounded"⟩
  else
    match t1 with
    | .tModel nm2 _ => ⟨n, nm2 ++ "Type", some "0", none⟩
    | _ => ⟨n, _pytype_to_xsd t1, some "0", none⟩

/-- The complex type `process_model` builds for a model: name
`{m.__name__}Type`, one sequence element per field in field order. -/
def mkCt (nm : String) (fs : Fields) : XsdComplexType :=
  ⟨nm ++ "Type", fs.map (fun p => xsdElemFor p.1 p.2)⟩

mutual

/-- `process_model` of `to_xsd` (`model.py:321`): return unchanged when
the model name is already in `complex_types` (the memoization that emits
each record once and terminates on shared sub-schemas); otherwise
process the fields (recursing into nested models first) and append the
model's complex type at the end, as the dict insertion does. -/
def process_model : Nat → String → Fields → XsdAcc → Except String XsdAcc
  | 0, _, _, _ => .error "recursion limit exceeded"
  | fuel + 1, nm, fs, acc =>
    if (acc.map Prod.fst).contains nm then .ok acc
    else do
      let acc2 ← process_fields fuel fs acc
      .ok (acc2 ++ [(nm, mkCt nm fs)])

def process_fields : Nat → Fields → XsdAcc → Except String XsdAcc
  | 0, _, _ => .error "recursion limit exceeded"
  | _ + 1, [], acc => .ok acc
  | fuel + 1, (_, t) :: rest, acc => do
    let acc2 ← process_field_type fuel t acc
    process_fields fuel rest acc2

/-- The per-field recursion of `process_model`: recurse exactly into the
nested model found by the field's unwrap chain. -/
def process_field_type : Nat → PyType → XsdAcc → Except String XsdAcc
  | 0, _, _ => .error "recursion limit exceeded"
  | fuel + 1, t, acc =>
    match fieldRecord t with
    | some (nm2, fs2) => process_model fuel nm2 fs2 acc
    | none => .ok acc

end

/-- The ordered `complex_types` collection that `to_xsd` appends to the
schema (the textual `tostring` rendering is not modelled; the claims
are about which complex types appear). -/
def to_xsd_types (fuel : Nat) (nm : String) (fs : Fields) :
    Except String XsdAcc :=
  process_model fuel nm fs []

mutual

/-- Specification-side reachability: the records `process_model` is
asked to emit — the root plus, recursively, every nested model found by
the per-field unwrap chain (the same chain as `fieldRecord`, written as
direct patterns so the recursion is structural). -/
def reachT : PyType → List (String × Fields)
  | .tModel nm fs => (nm, fs) :: reachF fs
  | .tOptional (.tModel nm fs) => (nm, fs) :: reachF fs
  | .tList (.tModel nm fs) => (nm, fs) :: reachF fs
  | .tOptional (.tList (.tModel nm fs)) => (nm, fs) :: reachF fs
  | _ => []

def reachF : Fields → List (String × Fields)
  | [] => []
  | (_, t) :: rest => reachT t ++ reachF rest

end

/-- All records reachable from a root model: the root and every record
reachable through its fields. -/
def reachM (nm : String) (fs : Fields) : List (String × Fields) :=
  (nm, fs) :: reachF fs

theorem reachT_eq_fieldRecord (t : PyType) :
    reachT t =
      (match fieldRecord t with
       | some (nm2, fs2) => (nm2, fs2) :: reachF fs2
       | none => []) := by
  match t with
  | .tStr | .tInt | .tFloat | .tBool | .fixed _ => rfl
  | .tModel _ _ => rfl
  | .tList e => cases e <;> rfl
  | .tOptional i =>
    match i with
    | .tStr | .tInt | .tFloat | .tBool | .fixed _ => rfl
    | .tModel _ _ => rfl
    | .tOptional _ => rfl
    | .tList e => cases e <;> rfl

/-- `CppLanguageAdapter._cpp_type_str` (`cpp_adapter.py:181`); the
`Dict` branch is unreachable in this embedding (no claim uses dicts),
and unmatched annotations (bool, models) fall through to `auto`. -/
def _cpp_type_str : PyType → String
  | .tOptional i => "std::optional<" ++ _cpp_type_str i ++ ">"
  | .tList e => "std::vector<" ++ _cpp_type_str e ++ ">"
  | .fixed .i8 => "int8_t"
  | .fixed .i16 => "int16_t"
  | .fixed .i32 => "int32_t"
  | .fixed .u8 => "uint8_t"
  | .fixed .u16 => "uint16_t"
  | .fixed .u32 => "uint32_t"
  | .tStr => "std::string"
  | .tFloat => "double"
  | .tInt => "int"
  | _ => "auto"

/-- `RustLanguageAdapter._rust_type_str` (`rust_adapter.py:47`); the
`Dict` branch is unreachable in this embedding. -/
def _rust_type_str : PyType → String
  | .tOptional i => "Option<" ++ _rust_type_str i ++ ">"
  | .tList e => "Vec<" ++ _rust_type_str e ++ ">"
  | .fixed .i8 => "i8"
  | .fixed .i16 => "i16"
  | .fixed .i32 => "i32"
  | .fixed .u8 => "u8"
  | .fixed .u16 => "u16"
  | .fixed .u32 => "u32"
  | .tStr => "String"
  | .tFloat => "f64"
  | .tInt => "i64"
  | _ => "serde_json::Value"

/-- `GoLanguageAdapter._go_type_str` (`go_adapter.py:67`). -/
def _go_type_str : PyType → String
  | .tOptional i => "*" ++ _go_type_str i
  | .tList e => "[]" ++ _go_type_str e
  | .fixed .i8 => "int"
  | .fixed .i16 => "int"
  | .fixed .i32 => "int"
  | .tInt => "int"
  | .fixed .u8 => "uint"
  | .fixed .u16 => "uint"
  | .fixed .u32 => "uint"
  | .tFloat => "float64"
  | .tStr => "string"
  | _ => "interface\x7b\x7d"

/-- `CsLanguageAdapter._cs_type_str` (`cs_adapter.py:46`). -/
def _cs_type_str : PyType → String
  | .tOptional i => _cs_type_str i ++ "?"
  | .tList e => "List<" ++ _cs_type_str e ++ ">"
  | .fixed .i8 => "int"
  | .fixed .i16 => "int"
  | .fixed .i32 => "int"
  | .tInt => "int"
  | .fixed .u8 => "uint"
  | .fixed .u16 => "uint"
  | .fixed .u32 => "uint"
  | .tFloat => "double"
  | .tStr => "string"
  | _ => "object"

/-- `SwiftLanguageAdapter._swift_type_str` (`swift_adapter.py:48`). -/
def _swift_type_str : PyType → String
  | .tOptional i => _swift_type_str i ++ "?"
  | .tList e => "[" ++ _swift_type_str e ++ "]"
  | .fixed .i8 => "Int"
  | .fixed .i16 => "Int"
  | .fixed .i32 => "Int"
  | .tInt => "Int"
  | .fixed .u8 => "UInt"
  | .fixed .u16 => "UInt"
  | .fixed .u32 => "UInt"
  | .tFloat => "Double"
  | .tStr => "String"
  | _ => "Any"

/-- `JavaLanguageAdapter._java_type_str` (`java_adapter.py:119`).  The
fixed-width test at `java_adapter.py:131` is
`annotation is (i8, i16, i32, u8, u16, u32)` — identity against a
freshly built tuple, which is always False — so all six fixed-width
kinds fall through the chain (they are not `int` by identity and not
pydantic models) to the final `"Object"` fallback. -/
def _java_type_str : PyType → String
  | .tOptional i => _java_type_str i
  | .tList e => "List<" ++ _java_type_str e ++ ">"
  | .tStr => "String"
  | .tInt => "int"
  | .tFloat => "double"
  | .tBool => "boolean"
  | .tModel nm _ => nm
  | _ => "Object"

/-- The three wire formats of the emitter contract. -/
inductive WireFormat where
  | json | yaml | xml
deriving DecidableEq

/-- Go export casing: `name[:1].upper() + name[1:]`. -/
def goFieldName (n : String) : String :=
  (n.take 1).toUpper ++ n.drop 1

/-- The struct member line of `CppLanguageAdapter.generate_definition`. -/
def cppMemberLine (p : String × PyType) : String :=
  "    " ++ _cpp_type_str p.2 ++ " " ++ p.1 ++ ";"

/-- One field of the generated C++ `to_xml` body (`cpp_adapter.py:85`):
string fields emit their value directly, all others via
`std::to_string`. -/
def cppXmlToLines (p : String × PyType) : List String :=
  ["        \x7b",
   "            auto* node = doc.allocate_node(rapidxml::node_element, \"" ++
     p.1 ++ "\");",
   (match p.2 with
    | .tStr =>
      "            node->value(doc.allocate_string(" ++ p.1 ++ ".c_str()));"
    | _ =>
      "            node->value(doc.allocate_string(std::to_string(" ++ p.1 ++
        ").c_str()));"),
   "            root->append_node(node);",
   "        \x7d"]

/-- One field of the generated C++ `from_xml` body (`cpp_adapter.py:121`):
strings assign `node->value()`, `int` and the six fixed-width kinds use
`std::stoi`, floats `std::stod`, anything else falls back to the string
assignment. -/
def cppXmlFromLine (p : String × PyType) : String :=
  match p.2 with
  | .tStr =>
    "        if (auto* node = root->first_node(\"" ++ p.1 ++ "\")) obj." ++
      p.1 ++ " = node->value();"
  | .tInt =>
    "        if (auto* node = root->first_node(\"" ++ p.1 ++ "\")) obj." ++
      p.1 ++ " = std::stoi(node->value());"
  | .fixed _ =>
    "        if (auto* node = root->first_node(\"" ++ p.1 ++ "\")) obj." ++
      p.1 ++ " = std::stoi(node->value());"
  | .tFloat =>
    "        if (auto* node = root->first_node(\"" ++ p.1 ++ "\")) obj." ++
      p.1 ++ " = std::stod(node->value());"
  | _ =>
    "        if (auto* node = root->first_node(\"" ++ p.1 ++ "\")) obj." ++
      p.1 ++ " = node->value();"

/-- The fixed include/using preamble plus the struct declaration line of
`CppLanguageAdapter.generate_definition`. -/
def cppHeader (nm : String) : List String :=
  ["#include <string>",
   "#include <vector>",
   "#include <fstream>",
   "#include <sstream>",
   "#include <nlohmann/json.hpp>",
   "#include <yaml-cpp/yaml.h>",
   "#include <rapidxml/rapidxml.hpp>",
   "#include <rapidxml/rapidxml_print.hpp>",
   "using std::string; using std::vector;",
   "",
   "struct " ++ nm ++ " \x7b"]

/-- Everything `CppLanguageAdapter.generate_definition` appends after
the member declarations: the JSON/YAML/XML pairs and the file helpers. -/
def cppTail (nm : String) (fs : Fields) : List String :=
  ["",
   "    nlohmann::json to_json() const \x7b",
   "        nlohmann::json j;"] ++
  fs.map (fun p => "        j[\"" ++ p.1 ++ "\"] = " ++ p.1 ++ ";") ++
  ["        return j;",
   "    \x7d",
   "",
   "    static " ++ nm ++ " from_json(const nlohmann::json& j) \x7b",
   "        " ++ nm ++ " obj;"] ++
  fs.map (fun p =>
    "        obj." ++ p.1 ++ " = j.at(\"" ++ p.1 ++ "\").get<decltype(obj." ++
      p.1 ++ ")>();") ++
  ["        return obj;",
   "    \x7d",
   "",
   "    YAML::Node to_yaml() const \x7b",
   "        YAML::Node node;"] ++
  fs.map (fun p => "        node[\"" ++ p.1 ++ "\"] = " ++ p.1 ++ ";") ++
  ["        return node;",
   "    \x7d",
   "",
   "    static " ++ nm ++ " from_yaml(const YAML::Node& node) \x7b",
   "        " ++ nm ++ " obj;"] ++
  fs.map (fun p =>
    "        obj." ++ p.1 ++ " = node[\"" ++ p.1 ++ "\"].as<decltype(obj." ++
      p.1 ++ ")>();") ++
  ["        return obj;",
   "    \x7d",
   "",
   "    std::string to_xml() const \x7b",
   "        rapidxml::xml_document<> doc;",
   "        auto* root = doc.allocate_node(rapidxml::node_element, \"" ++ nm ++
     "\");",
   "        doc.append_node(root);"] ++
  fs.flatMap cppXmlToLines ++
  ["        std::string xml_string; rapidxml::print(std::back_inserter(xml_string), doc, 0);",
   "        return xml_string;",
   "    \x7d",
   "",
   "    static " ++ nm ++ " from_xml(const std::string& xml_str) \x7b",
   "        " ++ nm ++ " obj;",
   "        rapidxml::xml_document<> doc;",
   "        std::vector<char> xml_copy(xml_str.begin(), xml_str.end());",
   "        xml_copy.push_back(\x27\\0\x27);",
   "        doc.parse<0>(&xml_copy[0]);",
   "        auto* root = doc.first_node(\"" ++ nm ++ "\");"] ++
  fs.map cppXmlFromLine ++
  ["        return obj;",
   "    \x7d",
   "",
   "\x7d;",
   "",
   "inline void to_json_file(const " ++ nm ++ "& obj, const std::string& path) \x7b",
   "    std::ofstream f(path); f << obj.to_json().dump(2); \x7d",
   "inline " ++ nm ++ " from_json_file(const std::string& path) \x7b",
   "    std::ifstream f(path); nlohmann::json j; f >> j; return " ++ nm ++
     "::from_json(j); \x7d",
   "",
   "inline void to_yaml_file(const " ++ nm ++ "& obj, const std::string& path) \x7b",
   "    std::ofstream f(path); f << obj.to_yaml(); \x7d",
   "inline " ++ nm ++ " from_yaml_file(const std::string& path) \x7b",
   "    YAML::Node node = YAML::LoadFile(path); return " ++ nm ++
     "::from_yaml(node); \x7d",
   "",
   "inline void to_xml_file(const " ++ nm ++ "& obj, const std::string& path) \x7b",
   "    std::ofstream f(path); f << obj.to_xml(); \x7d",
   "inline " ++ nm ++ " from_xml_file(const std::string& path) \x7b",
   "    std::ifstream f(path); std::stringstream buffer; buffer << f.rdbuf(); return " ++
     nm ++ "::from_xml(buffer.str()); \x7d"]

/-- `CppLanguageAdapter.generate_definition` (`cpp_adapter.py:15`) as the
list of lines the Python code appends before joining with newlines. -/
def cpp_generate_definition (nm : String) (fs : Fields) : List String :=
  cppHeader nm ++ fs.map cppMemberLine ++ cppTail nm fs

/-- The struct member line of `RustLanguageAdapter.generate_definition`. -/
def rustMemberLine (p : String × PyType) : String :=
  "    pub " ++ p.1 ++ ": " ++ _rust_type_str p.2 ++ ","

/-- The single opening entry of `RustLanguageAdapter.generate_definition`
(it contains an embedded newline, exactly as the Python list does). -/
def rustHeader (nm : String) : List String :=
  ["#[derive(Debug, serde::Serialize, serde::Deserialize, PartialEq, Clone)]\npub struct " ++
    nm ++ " \x7b"]

/-- The `impl` block `RustLanguageAdapter.generate_definition` appends
after the member declarations. -/
def rustTail (nm : String) : List String :=
  ["\x7d",
   "\nimpl " ++ nm ++ " \x7b",
   "    pub fn to_json(&self) -> String \x7b serde_json::to_string_pretty(self).unwrap() \x7d",
   "    pub fn from_json(s: &str) -> Self \x7b serde_json::from_str(s).unwrap() \x7d",
   "    pub fn to_yaml(&self) -> String \x7b serde_yaml::to_string(self).unwrap() \x7d",
   "    pub fn from_yaml(s: &str) -> Self \x7b serde_yaml::from_str(s).unwrap() \x7d",
   "    pub fn to_xml(&self) -> String \x7b serde_xml_rs::to_string(self).unwrap() \x7d",
   "    pub fn from_xml(s: &str) -> Self \x7b serde_xml_rs::from_str(s).unwrap() \x7d",
   "\x7d"]

/-- `RustLanguageAdapter.generate_definition` (`rust_adapter.py:15`). -/
def rust_generate_definition (nm : String) (fs : Fields) : List String :=
  rustHeader nm ++ fs.map rustMemberLine ++ rustTail nm

/-- The struct member line of `GoLanguageAdapter.generate_definition`
(exported field name, type, and the json/xml/yaml struct tags). -/
def goMemberLine (p : String × PyType) : String :=
  "    " ++ goFieldName p.1 ++ " " ++ _go_type_str p.2 ++ " `json:\"" ++ p.1 ++
    "\" xml:\"" ++ p.1 ++ "\" yaml:\"" ++ p.1 ++ "\"`"

/-- The import block plus the struct declaration line of
`GoLanguageAdapter.generate_definition`. -/
def goHeader (nm : String) : List String :=
  ["import (",
   "    \"encoding/json\"",
   "    \"encoding/xml\"",
   "    \"gopkg.in/yaml.v3\"",
   ")",
   "",
   "type " ++ nm ++ " struct \x7b"]

/-- The JSON/XML/YAML function pairs `GoLanguageAdapter` appends after
the member declarations. -/
def goTail (nm : String) : List String :=
  ["\x7d",
   "",
   "func (m *" ++ nm ++ ") ToJSON() (string, error) \x7b",
   "    b, err := json.MarshalIndent(m, \"\", \"  \")",
   "    return string(b), err",
   "\x7d",
   "",
   "func " ++ nm ++ "FromJSON(data string) (*" ++ nm ++ ", error) \x7b",
   "    var m " ++ nm,
   "    err := json.Unmarshal([]byte(data), &m)",
   "    return &m, err",
   "\x7d",
   "",
   "func (m *" ++ nm ++ ") ToXML() (string, error) \x7b",
   "    b, err := xml.MarshalIndent(m, \"\", \"  \")",
   "    return string(b), err",
   "\x7d",
   "",
   "func " ++ nm ++ "FromXML(data string) (*" ++ nm ++ ", error) \x7b",
   "    var m " ++ nm,
   "    err := xml.Unmarshal([]byte(data), &m)",
   "    return &m, err",
   "\x7d",
   "",
   "func (m *" ++ nm ++ ") ToYAML() (string, error) \x7b",
   "    b, err := yaml.Marshal(m)",
   "    return string(b), err",
   "\x7d",
   "",
   "func " ++ nm ++ "FromYAML(data string) (*" ++ nm ++ ", error) \x7b",
   "    var m " ++ nm,
   "    err := yaml.Unmarshal([]byte(data), &m)",
   "    return &m, err",
   "\x7d"]

/-- `GoLanguageAdapter.generate_definition` (`go_adapter.py:8`). -/
def go_generate_definition (nm : String) (fs : Fields) : List String :=
  goHeader nm ++ fs.map goMemberLine ++ goTail nm

/-- The three per-field lines of `JavaLanguageAdapter.generate_definition`
(Jackson and JAXB annotations plus the public member). -/
def javaMemberLines (p : String × PyType) : List String :=
  ["    @JsonProperty(\"" ++ p.1 ++ "\")",
   "    @XmlElement(name=\"" ++ p.1 ++ "\")",
   "    public " ++ _java_type_str p.2 ++ " " ++ p.1 ++ ";"]

/-- The import block, `@XmlRootElement` annotation and class declaration
line of `JavaLanguageAdapter.generate_definition`. -/
def javaHeader (nm : String) : List String :=
  ["import com.fasterxml.jackson.annotation.*;",
   "import com.fasterxml.jackson.databind.*;",
   "import com.fasterxml.jackson.dataformat.yaml.*;",
   "import com.fasterxml.jackson.dataformat.xml.annotation.*;",
   "import javax.xml.bind.annotation.*;",
   "import java.util.*;",
   "",
   "@XmlRootElement(name=\"" ++ nm ++ "\")",
   "public class " ++ nm ++ " \x7b"]

/-- Constructors, `toString` and the JSON/YAML/XML pairs
`JavaLanguageAdapter` appends after the member declarations. -/
def javaTail (nm : String) (fs : Fields) : List String :=
  ["",
   "    public " ++ nm ++ "() \x7b\x7d",
   "    public " ++ nm ++ "(" ++
     String.intercalate ", "
       (fs.map (fun p => _java_type_str p.2 ++ " " ++ p.1)) ++ ") \x7b"] ++
  fs.map (fun p => "        this." ++ p.1 ++ " = " ++ p.1 ++ ";") ++
  ["    \x7d",
   "",
   "    @Override public String toString() \x7b",
   "        return \"" ++ nm ++ "(" ++
     String.intercalate ", "
       (fs.map (fun p => p.1 ++ "=\" + " ++ p.1 ++ " + \"")) ++ ")\";",
   "    \x7d",
   "",
   "    public String toJson() throws Exception \x7b",
   "        return new ObjectMapper().writeValueAsString(this);",
   "    \x7d",
   "",
   "    public static " ++ nm ++ " fromJson(String json) throws Exception \x7b",
   "        return new ObjectMapper().readValue(json, " ++ nm ++ ".class);",
   "    \x7d",
   "",
   "    public String toYaml() throws Exception \x7b",
   "        return new ObjectMapper(new YAMLFactory()).writeValueAsString(this);",
   "    \x7d",
   "",
   "    public static " ++ nm ++ " fromYaml(String yaml) throws Exception \x7b",
   "        return new ObjectMapper(new YAMLFactory()).readValue(yaml, " ++ nm ++
     ".class);",
   "    \x7d",
   "",
   "    public String toXml() throws Exception \x7b",
   "        java.io.StringWriter sw = new java.io.StringWriter();",
   "        javax.xml.bind.JAXBContext ctx = javax.xml.bind.JAXBContext.newInstance(" ++
     nm ++ ".class);",
   "        javax.xml.bind.Marshaller m = ctx.createMarshaller();",
   "        m.setProperty(javax.xml.bind.Marshaller.JAXB_FORMATTED_OUTPUT, Boolean.TRUE);",
   "        m.marshal(this, sw);",
   "        return sw.toString();",
   "    \x7d",
   "",
   "    public static " ++ nm ++ " fromXml(String xml) throws Exception \x7b",
   "        javax.xml.bind.JAXBContext ctx = javax.xml.bind.JAXBContext.newInstance(" ++
     nm ++ ".class);",
   "        javax.xml.bind.Unmarshaller um = ctx.createUnmarshaller();",
   "        return (" ++ nm ++ ") um.unmarshal(new java.io.StringReader(xml));",
   "    \x7d",
   "\x7d"]

/-- `JavaLanguageAdapter.generate_definition` (`java_adapter.py:17`). -/
def java_generate_definition (nm : String) (fs : Fields) : List String :=
  javaHeader nm ++ fs.flatMap javaMemberLines ++ javaTail nm fs

def csMemberLine (p : String × PyType) : String :=
  "    public " ++ _cs_type_str p.2 ++ " " ++ p.1 ++ " \x7b get; set; \x7d"

/-- The using block and class declaration lines of
`CsLanguageAdapter.generate_definition`. -/
def csHeader (nm : String) : List String :=
  ["using System;",
   "using System.Text.Json;",
   "using System.Text.Json.Serialization;",
   "using System.Xml.Serialization;",
   "",
   "public class " ++ nm,
   "\x7b"]

/-- The JSON/XML pairs `CsLanguageAdapter` appends after the member
declarations. -/
def csTail (nm : String) : List String :=
  ["",
   "    public string ToJson() => JsonSerializer.Serialize(this, new JsonSerializerOptions \x7b WriteIndented = true \x7d);",
   "    public static " ++ nm ++ " FromJson(string json) => JsonSerializer.Deserialize<" ++
     nm ++ ">(json);",
   "    public string ToXml() \x7b using var sw = new System.IO.StringWriter(); new XmlSerializer(typeof(" ++
     nm ++ ")).Serialize(sw, this); return sw.ToString(); \x7d",
   "    public static " ++ nm ++ " FromXml(string xml) \x7b using var sr = new System.IO.StringReader(xml); return (" ++
     nm ++ ")new XmlSerializer(typeof(" ++ nm ++ ")).Deserialize(sr); \x7d",
   "\x7d"]

/-- `CsLanguageAdapter.generate_definition` (`cs_adapter.py:8`). -/
def cs_generate_definition (nm : String) (fs : Fields) : List String :=
  csHeader nm ++ fs.map csMemberLine ++ csTail nm

def swiftMemberLine (p : String × PyType) : String :=
  "    var " ++ p.1 ++ ": " ++ _swift_type_str p.2

/-- The placeholder comment the Swift emitter leaves instead of XML
serialization code (`swift_adapter.py:41`). -/
def swiftXmlPlaceholder : String :=
  "    // XML serialization/deserialization would require a third-party library or custom implementation"

/-- The import and struct declaration lines of
`SwiftLanguageAdapter.generate_definition`. -/
def swiftHeader (nm : String) : List String :=
  ["import Foundation",
   "",
   "struct " ++ nm ++ ": Codable \x7b"]

/-- What `SwiftLanguageAdapter` appends after the member declarations:
the Codable JSON pair and the XML placeholder comment. -/
def swiftTail : List String :=
  ["",
   "    func toJSON() -> String? \x7b",
   "        let encoder = JSONEncoder()",
   "        encoder.outputFormatting = .prettyPrinted",
   "        if let data = try? encoder.encode(self) \x7b",
   "            return String(data: data, encoding: .utf8)",
   "        \x7d",
   "        return nil",
   "    \x7d",
   "    static func fromJSON(_ json: String) -> Self? \x7b",
   "        let decoder = JSONDecoder()",
   "        if let data = json.data(using: .utf8) \x7b",
   "            return try? decoder.decode(Self.self, from: data)",
   "        \x7d",
   "        return nil",
   "    \x7d",
   swiftXmlPlaceholder,
   "\x7d"]

/-- `SwiftLanguageAdapter.generate_definition` (`swift_adapter.py:8`).
Its docstring claims "serialization/deserialization code for JSON and
XML", but the generated code contains only a JSON pair plus the XML
placeholder comment. -/
def swift_generate_definition (nm : String) (fs : Fields) : List String :=
  swiftHeader nm ++ fs.map swiftMemberLine ++ swiftTail

/-- The wire formats each adapter's own documentation claims to support:
C++ from its docstring ("XML …, JSON …, and YAML"); Go and C# from
their docstrings ("JSON and XML"); Swift from its docstring ("JSON and
XML"); Rust and Java from the `LanguageAdapter.generate_definition`
base contract ("XML, JSON, and YAML"), having no docstring of their
own. -/
def claimedFormats : String → List WireFormat
  | "cpp" => [.xml, .json, .yaml]
  | "rust" => [.xml, .json, .yaml]
  | "go" => [.json, .xml]
  | "java" => [.xml, .json, .yaml]
  | "cs" => [.json, .xml]
  | "swift" => [.json, .xml]
  | _ => []

/-- C2 (code evaluated at the failing input): mapping a `u16` field in
every language emitter.  C++, Rust, Go, C# and Swift map it to their
documented unsigned 16-bit-capable (or nearest wider unsigned) types;
Java returns `"Object"`, because the fixed-width branch at
`java_adapter.py:131` tests `annotation is (i8, i16, i32, u8, u16, u32)`
— identity against a tuple, always False — so no integer-capable type is
chosen, contradicting the documented mapping contract.  Each mapping
function is pure, so the chosen type is the same on every call. -/
theorem u16_type_mapping_per_emitter :
    _cpp_type_str (.fixed .u16) = "uint16_t" ∧
    _rust_type_str (.fixed .u16) = "u16" ∧
    _go_type_str (.fixed .u16) = "uint" ∧
    _cs_type_str (.fixed .u16) = "uint" ∧
    _swift_type_str (.fixed .u16) = "UInt" ∧
    _java_type_str (.fixed .u16) = "Object" :=
  ⟨rfl, rfl, rfl, rfl, rfl, rfl⟩

/-- The `Person` record of the C4 scenario:
`Person{name: string, age: optional int, hobbies: optional list<string>}`. -/
def personFields : Fields :=
  [("name", .tStr), ("age", .tOptional .tInt),
   ("hobbies", .tOptional (.tList .tStr))]

/-- The C4 instance: `{name: "Alice", age: absent, hobbies: absent}`. -/
def alice : Inst :=
  [("name", .vStr "Alice"), ("age", .vNone), ("hobbies", .vNone)]

/-- The C4 XML document
`<Person><name>Alice</name><age></age><hobbies></hobbies></Person>`
as `ElementTree` parses it (empty elements carry no text). -/
def aliceClaimXml : Xml :=
  .elem "Person" none
    [.elem "name" (some "Alice") [], .elem "age" none [],
     .elem "hobbies" none []]

/-- C4 counterexample: on the claim's own scenario, (a) `to_json` does
NOT omit the absent fields — the dumped native tree keeps explicit
`age`/`hobbies` keys with `null` values — and (b) `from_xml` on the
claim's document does NOT reconstruct `age` as absent: it raises the
`int(None)` `TypeError` while coercing the empty `<age>` element. -/
theorem optional_absent_roundtrip_counterexample :
    to_native_tree 20 alice =
      .vDict [("name", .vStr "Alice"), ("age", .vNone), ("hobbies", .vNone)] ∧
    from_xml_tree 20 personFields aliceClaimXml =
      .error "int() argument must not be NoneType" :=
  ⟨rfl, rfl⟩

/-- C4 as amended: (1) the JSON tree keeps `name="Alice"` and explicit
`null` entries for `age` and `hobbies` (not omitted keys); (2) the JSON
round trip reconstructs an instance equal to the original; (3) XML
serialization yields `<Person><name>Alice</name><age></age>`
`<hobbies></hobbies></Person>` (empty text on `age`, empty `hobbies`
wrapper); (4) parsing that serialization back raises (`int("")`), and
parsing the claim's document raises (`int(None)`): absence does not
survive an XML round trip through empty elements; (5) an empty
`<hobbies>` wrapper parses to the empty list, not to absent; (6) only
when the optional elements are entirely missing does `from_xml`
reconstruct `age` and `hobbies` as absent. -/
theorem optional_absent_roundtrip_amended :
    to_native_tree 20 alice =
      .vDict [("name", .vStr "Alice"), ("age", .vNone), ("hobbies", .vNone)] ∧
    from_native_tree 20 personFields (to_native_tree 20 alice) = .ok alice ∧
    to_xml_tree 20 "Person" personFields alice =
      .ok (.elem "Person" none
        [.elem "name" (some "Alice") [], .elem "age" (some "") [],
         .elem "hobbies" none []]) ∧
    from_xml_tree 20 personFields
        (.elem "Person" none
          [.elem "name" (some "Alice") [], .elem "age" (some "") [],
           .elem "hobbies" none []]) =
      .error "invalid literal for int() with base 10: " ∧
    from_xml_tree 20 personFields aliceClaimXml =
      .error "int() argument must not be NoneType" ∧
    from_xml_tree 20 personFields
        (.elem "Person" none
          [.elem "name" (some "Alice") [], .elem "hobbies" none []]) =
      .ok [("name", .vStr "Alice"), ("age", .vNone),
           ("hobbies", .vList [])] ∧
    from_xml_tree 20 personFields
        (.elem "Person" none [.elem "name" (some "Alice") []]) = .ok alice :=
  ⟨rfl, rfl, rfl, rfl, rfl, rfl, rfl⟩

/-- Naive substring search over character lists. -/
def hasSubstrChars (pat : List Char) : List Char → Bool
  | [] => pat.isEmpty
  | c :: rest => pat.isPrefixOf (c :: rest) || hasSubstrChars pat rest

/-- `pat in s` for strings. -/
def strMentions (pat s : String) : Bool :=
  hasSubstrChars pat.data s.data

/-- C5 counterexample: the Swift adapter's docstring claims XML support,
but on the record `P{x: string}` the generated Swift code contains no
XML serialize/deserialize pair — the only line mentioning XML is the
explicit placeholder comment. -/
theorem swift_claimed_xml_pair_missing_counterexample :
    WireFormat.xml ∈ claimedFormats "swift" ∧
    (swift_generate_definition "P" [("x", .tStr)]).filter
        (fun l => strMentions "XML" l) = [swiftXmlPlaceholder] ∧
    (swift_generate_definition "P" [("x", .tStr)]).filter
        (fun l => strMentions "toXML" l) = [] ∧
    (swift_generate_definition "P" [("x", .tStr)]).filter
        (fun l => strMentions "fromXML" l) = [] := by
  refine ⟨by decide, rfl, rfl, rfl⟩

/-- C5 as amended, for every record name and field list: each emitter's
`generate_definition` contains a type declaration line naming the
record, the member declarations one per field in field order (as a
contiguous run of lines), and a serialize/deserialize function pair for
each wire format it supports — C++, Rust, Go and Java for JSON, YAML
and XML; C# for JSON and XML (YAML omitted); Swift for JSON only, its
docstring's XML claim being unimplemented: the generated code carries an
explicit placeholder comment instead of an XML pair. -/
theorem emitters_generate_definition_contract (nm : String) (fs : Fields) :
    (("struct " ++ nm ++ " \x7b") ∈ cpp_generate_definition nm fs ∧
     fs.map cppMemberLine <:+: cpp_generate_definition nm fs ∧
     "    nlohmann::json to_json() const \x7b" ∈ cpp_generate_definition nm fs ∧
     ("    static " ++ nm ++ " from_json(const nlohmann::json& j) \x7b") ∈
       cpp_generate_definition nm fs ∧
     "    YAML::Node to_yaml() const \x7b" ∈ cpp_generate_definition nm fs ∧
     ("    static " ++ nm ++ " from_yaml(const YAML::Node& node) \x7b") ∈
       cpp_generate_definition nm fs ∧
     "    std::string to_xml() const \x7b" ∈ cpp_generate_definition nm fs ∧
     ("    static " ++ nm ++ " from_xml(const std::string& xml_str) \x7b") ∈
       cpp_generate_definition nm fs) ∧
    (("#[derive(Debug, serde::Serialize, serde::Deserialize, PartialEq, Clone)]\npub struct " ++
        nm ++ " \x7b") ∈ rust_generate_definition nm fs ∧
     fs.map rustMemberLine <:+: rust_generate_definition nm fs ∧
     "    pub fn to_json(&self) -> String \x7b serde_json::to_string_pretty(self).unwrap() \x7d" ∈
       rust_generate_definition nm fs ∧
     "    pub fn from_json(s: &str) -> Self \x7b serde_json::from_str(s).unwrap() \x7d" ∈
       rust_generate_definition nm fs ∧
     "    pub fn to_yaml(&self) -> String \x7b serde_yaml::to_string(self).unwrap() \x7d" ∈
       rust_generate_definition nm fs ∧
     "    pub fn from_yaml(s: &str) -> Self \x7b serde_yaml::from_str(s).unwrap() \x7d" ∈
       rust_generate_definition nm fs ∧
     "    pub fn to_xml(&self) -> String \x7b serde_xml_rs::to_string(self).unwrap() \x7d" ∈
       rust_generate_definition nm fs ∧
     "    pub fn from_xml(s: &str) -> Self \x7b serde_xml_rs::from_str(s).unwrap() \x7d" ∈
       rust_generate_definition nm fs) ∧
    (("type " ++ nm ++ " struct \x7b") ∈ go_generate_definition nm fs ∧
     fs.map goMemberLine <:+: go_generate_definition nm fs ∧
     ("func (m *" ++ nm ++ ") ToJSON() (string, error) \x7b") ∈
       go_generate_definition nm fs ∧
     ("func " ++ nm ++ "FromJSON(data string) (*" ++ nm ++ ", error) \x7b") ∈
       go_generate_definition nm fs ∧
     ("func (m *" ++ nm ++ ") ToXML() (string, error) \x7b") ∈
       go_generate_definition nm fs ∧
     ("func " ++ nm ++ "FromXML(data string) (*" ++ nm ++ ", error) \x7b") ∈
       go_generate_definition nm fs ∧
     ("func (m *" ++ nm ++ ") ToYAML() (string, error) \x7b") ∈
       go_generate_definition nm fs ∧
     ("func " ++ nm ++ "FromYAML(data string) (*" ++ nm ++ ", error) \x7b") ∈
       go_generate_definition nm fs) ∧
    (("public class " ++ nm ++ " \x7b") ∈ java_generate_definition nm fs ∧
     fs.flatMap javaMemberLines <:+: java_generate_definition nm fs ∧
     "    public String toJson() throws Exception \x7b" ∈
       java_generate_definition nm fs ∧
     ("    public static " ++ nm ++ " fromJson(String json) throws Exception \x7b") ∈
       java_generate_definition nm fs ∧
     "    public String toYaml() throws Exception \x7b" ∈
       java_generate_definition nm fs ∧
     ("    public static " ++ nm ++ " fromYaml(String yaml) throws Exception \x7b") ∈
       java_generate_definition nm fs ∧
     "    public String toXml() throws Exception \x7b" ∈
       java_generate_definition nm fs ∧
     ("    public static " ++ nm ++ " fromXml(String xml) throws Exception \x7b") ∈
       java_generate_definition nm fs) ∧
    (("public class " ++ nm) ∈ cs_generate_definition nm fs ∧
     fs.map csMemberLine <:+: cs_generate_definition nm fs ∧
     "    public string ToJson() => JsonSerializer.Serialize(this, new JsonSerializerOptions \x7b WriteIndented = true \x7d);" ∈
       cs_generate_definition nm fs ∧
     ("    public static " ++ nm ++ " FromJson(string json) => JsonSerializer.Deserialize<" ++
        nm ++ ">(json);") ∈ cs_generate_definition nm fs ∧
     ("    public string ToXml() \x7b using var sw = new System.IO.StringWriter(); new XmlSerializer(typeof(" ++
        nm ++ ")).Serialize(sw, this); return sw.ToString(); \x7d") ∈
       cs_generate_definition nm fs ∧
     ("    public static " ++ nm ++ " FromXml(string xml) \x7b using var sr = new System.IO.StringReader(xml); return (" ++
        nm ++ ")new XmlSerializer(typeof(" ++ nm ++ ")).Deserialize(sr); \x7d") ∈
       cs_generate_definition nm fs) ∧
    (("struct " ++ nm ++ ": Codable \x7b") ∈ swift_generate_definition nm fs ∧
     fs.map swiftMemberLine <:+: swift_generate_definition nm fs ∧
     "    func toJSON() -> String? \x7b" ∈ swift_generate_definition nm fs ∧
     "    static func fromJSON(_ json: String) -> Self? \x7b" ∈
       swift_generate_definition nm fs ∧
     swiftXmlPlaceholder ∈ swift_generate_definition nm fs) := by
  refine ⟨⟨?_, ⟨cppHeader nm, cppTail nm fs, rfl⟩, ?_, ?_, ?_, ?_, ?_, ?_⟩,
    ⟨?_, ⟨rustHeader nm, rustTail nm, rfl⟩, ?_, ?_, ?_, ?_, ?_, ?_⟩,
    ⟨?_, ⟨goHeader nm, goTail nm, rfl⟩, ?_, ?_, ?_, ?_, ?_, ?_⟩,
    ⟨?_, ⟨javaHeader nm, javaTail nm fs, rfl⟩, ?_, ?_, ?_, ?_, ?_, ?_⟩,
    ⟨?_, ⟨csHeader nm, csTail nm, rfl⟩, ?_, ?_, ?_, ?_⟩,
    ⟨?_, ⟨swiftHeader nm, swiftTail, rfl⟩, ?_, ?_, ?_⟩⟩ <;>
  simp [cpp_generate_definition, cppHeader, cppTail,
    rust_generate_definition, rustHeader, rustTail,
    go_generate_definition, goHeader, goTail,
    java_generate_definition, javaHeader, javaTail,
    cs_generate_definition, csHeader, csTail,
    swift_generate_definition, swiftHeader, swiftTail, swiftXmlPlaceholder]

theorem except_bind_ok {ε α β : Type} {x : Except ε α} {f : α → Except ε β}
    {b : β} : (x >>= f) = .ok b ↔ ∃ a, x = .ok a ∧ f a = .ok b := by
  cases x <;> simp [Bind.bind, Except.bind]

theorem except_map_ok {ε α β : Type} {x : Except ε α} {g : α → β} {b : β} :
    x.map g = .ok b ↔ ∃ a, x = .ok a ∧ g a = b := by
  cases x <;> simp [Except.map]

theorem emitField_ok_tag {fuel : Nat} {n : String} {actual : PyType}
    {v : Value} {c : Xml} (h : emitField fuel n actual v = .ok c) :
    Xml.tagOf c = n := by
  cases fuel with
  | zero => simp [emitField] at h
  | succ fuel =>
    simp only [emitField] at h
    split at h
    · split at h
      · obtain ⟨cs, _, hc⟩ := except_map_ok.mp h
        subst hc; rfl
      · simp at h; subst h; rfl
    · simp at h; subst h; rfl

theorem emitFields_ok_cons {fuel : Nat} {n : String} {t : PyType}
    {rest : Fields} {inst : Inst} {cs : List Xml}
    (h : emitFields (fuel + 1) ((n, t) :: rest) inst = .ok cs) :
    ∃ c cs', emitField fuel n (unwrap_optional t) (pyGetattr inst n) = .ok c ∧
      emitFields fuel rest inst = .ok cs' ∧ cs = c :: cs' := by
  simp only [emitFields] at h
  obtain ⟨c, hc, h2⟩ := except_bind_ok.mp h
  obtain ⟨cs', hcs', h3⟩ := except_bind_ok.mp h2
  simp at h3
  exact ⟨c, cs', hc, hcs', h3.symm⟩

theorem emitFields_findChild {fs : Fields} {fuel : Nat} {inst : Inst}
    {cs : List Xml} (nm : String) {f : String} {tf : PyType}
    (h : emitFields fuel fs inst = .ok cs)
    (hnd : (fs.map Prod.fst).Nodup)
    (hf : (f, tf) ∈ fs) :
    ∃ fuel' c,
      emitField fuel' f (unwrap_optional tf) (pyGetattr inst f) = .ok c ∧
      findChild (Xml.elem nm none cs) f = some c := by
  induction fs generalizing fuel cs with
  | nil => simp at hf
  | cons p rest ih =>
    obtain ⟨n, t⟩ := p
    cases fuel with
    | zero => simp [emitFields] at h
    | succ fuel =>
      obtain ⟨c, cs', hc, hcs', rfl⟩ := emitFields_ok_cons h
      have htag := emitField_ok_tag hc
      rcases List.mem_cons.mp hf with hf1 | hf2
      · obtain ⟨hfn, hft⟩ := Prod.mk.injEq .. ▸ hf1
        subst hfn; subst hft
        refine ⟨fuel, c, hc, ?_⟩
        simp [findChild, Xml.childrenOf, List.find?, htag]
      · have hnotin : n ∉ rest.map Prod.fst := by
          simpa using (List.nodup_cons.mp hnd).1
        have hne : n ≠ f := by
          intro hEq
          subst hEq
          exact hnotin (by simpa using List.mem_map_of_mem Prod.fst hf2)
        obtain ⟨fuel', c', hc', hfind⟩ :=
          ih hcs' (List.nodup_cons.mp hnd).2 hf2
        refine ⟨fuel', c', hc', ?_⟩
        simp only [findChild, Xml.childrenOf, List.find?] at hfind ⊢
        have : (Xml.tagOf c == f) = false := by
          simp [htag, hne]
        rw [this]
        exact hfind

theorem emitField_empty_list {fuel : Nat} {n : String} {item : PyType}
    {c : Xml} (h : emitField fuel n (.tList item) (.vList []) = .ok c) :
    c = .elem n none [] := by
  cases fuel with
  | zero => simp [emitField] at h
  | succ fuel =>
    simp only [emitField] at h
    cases fuel with
    | zero => simp [emitItems, Except.map] at h
    | succ fuel =>
      simp [emitItems, Except.map] at h
      exact h.symm

theorem parseFields_ok_cons {fuel : Nat} {n : String} {t : PyType}
    {rest : Fields} {x : Xml} {vals : List (String × Value)}
    (h : parseFields (fuel + 1) ((n, t) :: rest) x = .ok vals) :
    ∃ v vs, parseField fuel n (unwrap_optional t) x = .ok v ∧
      parseFields fuel rest x = .ok vs ∧ vals = (n, v) :: vs := by
  simp only [parseFields] at h
  obtain ⟨v, hv, h2⟩ := except_bind_ok.mp h
  obtain ⟨vs, hvs, h3⟩ := except_bind_ok.mp h2
  simp at h3
  exact ⟨v, vs, hv, hvs, h3.symm⟩

theorem parseFields_lookup {fs : Fields} {fuel : Nat} {x : Xml}
    {vals : List (String × Value)} {f : String} {tf : PyType}
    (h : parseFields fuel fs x = .ok vals)
    (hnd : (fs.map Prod.fst).Nodup)
    (hf : (f, tf) ∈ fs) :
    ∃ fuel' v, parseField fuel' f (unwrap_optional tf) x = .ok v ∧
      pyLookup vals f = some v := by
  induction fs generalizing fuel vals with
  | nil => simp at hf
  | cons p rest ih =>
    obtain ⟨n, t⟩ := p
    cases fuel with
    | zero => simp [parseFields] at h
    | succ fuel =>
      obtain ⟨v, vs, hv, hvs, rfl⟩ := parseFields_ok_cons h
      rcases List.mem_cons.mp hf with hf1 | hf2
      · obtain ⟨hfn, hft⟩ := Prod.mk.injEq .. ▸ hf1
        subst hfn; subst hft
        exact ⟨fuel, v, hv, by simp [pyLookup, List.find?]⟩
      · have hnotin : n ∉ rest.map Prod.fst := by
          simpa using (List.nodup_cons.mp hnd).1
        have hne : n ≠ f := by
          intro hEq
          subst hEq
          exact hnotin (by simpa using List.mem_map_of_mem Prod.fst hf2)
        obtain ⟨fuel', v', hv', hlook⟩ := ih hvs (List.nodup_cons.mp hnd).2 hf2
        refine ⟨fuel', v', hv', ?_⟩
        simp only [pyLookup, List.find?] at hlook ⊢
        have : (n == f) = false := by simp [hne]
        rw [this]
        exact hlook

theorem parseField_empty_wrapper {fuel : Nat} {f : String} {item : PyType}
    {x w : Xml} {v : Value}
    (h : parseField fuel f (.tList item) x = .ok v)
    (hw : findChild x f = some w)
    (hcs : Xml.childrenOf w = []) : v = .vList [] := by
  cases fuel with
  | zero => simp [parseField] at h
  | succ fuel =>
    simp only [parseField, hw, hcs] at h
    cases fuel with
    | zero => simp [parseItems, Except.map] at h
    | succ fuel =>
      simp [parseItems, Except.map] at h
      exact h.symm

theorem parseItems_ok_tags {cs : List Xml} {fuel : Nat} {fn : String}
    {it : PyType} {vs : List Value}
    (h : parseItems fuel fn it cs = .ok vs) :
    ∀ c ∈ cs, Xml.tagOf c = typeName it := by
  induction cs generalizing fuel vs with
  | nil => simp
  | cons c rest ih =>
    cases fuel with
    | zero => simp [parseItems] at h
    | succ fuel =>
      simp only [parseItems] at h
      split at h
      · rename_i htag
        intro c' hc'
        rcases List.mem_cons.mp hc' with hc1 | hc2
        · subst hc1; exact eq_of_beq htag
        · obtain ⟨v1, _, h2⟩ := except_bind_ok.mp h
          obtain ⟨vs1, hvs1, _⟩ := except_bind_ok.mp h2
          exact ih hvs1 c' hc2
      · simp at h

theorem parseItems_mismatch_error {fuel : Nat} {fn : String} {it : PyType}
    {c : Xml} {rest : List Xml}
    (hne : Xml.tagOf c ≠ typeName it) :
    parseItems (fuel + 1) fn it (c :: rest) =
      .error ("Expected item of type " ++ typeName it ++ " in field " ++ fn ++
        ", but found " ++ Xml.tagOf c) := by
  simp only [parseItems]
  have : (Xml.tagOf c == typeName it) = false := by simp [hne]
  rw [this]
  simp

theorem validateFields_lookup {fs : Fields} {fuel : Nat}
    {kvs out : List (String × Value)} {f : String} {tf : PyType}
    (h : validateFields fuel fs kvs = .ok out)
    (hnd : (fs.map Prod.fst).Nodup)
    (hf : (f, tf) ∈ fs) :
    ∃ fuel' v w, pyLookup kvs f = some v ∧
      validateField fuel' tf v = .ok w ∧ pyLookup out f = some w := by
  induction fs generalizing fuel out with
  | nil => simp at hf
  | cons p rest ih =>
    obtain ⟨n, t⟩ := p
    cases fuel with
    | zero => simp [validateFields] at h
    | succ fuel =>
      simp only [validateFields] at h
      obtain ⟨w1, hw1, h2⟩ := except_bind_ok.mp h
      obtain ⟨out1, hout1, h3⟩ := except_bind_ok.mp h2
      simp at h3
      subst h3
      rcases List.mem_cons.mp hf with hf1 | hf2
      · obtain ⟨hfn, hft⟩ := Prod.mk.injEq .. ▸ hf1
        subst hfn; subst hft
        cases hlk : pyLookup kvs f with
        | none => rw [hlk] at hw1; simp at hw1
        | some v0 =>
          rw [hlk] at hw1
          exact ⟨fuel, v0, w1, rfl, hw1, by simp [pyLookup, List.find?]⟩
      · have hnotin : n ∉ rest.map Prod.fst := by
          simpa using (List.nodup_cons.mp hnd).1
        have hne : n ≠ f := by
          intro hEq
          subst hEq
          exact hnotin (by simpa using List.mem_map_of_mem Prod.fst hf2)
        obtain ⟨fuel', v', w', hv', hw', hlook⟩ :=
          ih hout1 (List.nodup_cons.mp hnd).2 hf2
        refine ⟨fuel', v', w', hv', hw', ?_⟩
        simp only [pyLookup, List.find?] at hlook ⊢
        have : (n == f) = false := by simp [hne]
        rw [this]
        exact hlook

theorem is_list_unwrap_cases {tf : PyType}
    (hl : is_list_type (unwrap_optional tf) = true) :
    (∃ e, tf = .tList e) ∨ (∃ e, tf = .tOptional (.tList e)) := by
  cases tf with
  | tOptional i => cases i <;> simp_all [unwrap_optional, is_list_type]
  | tList e => exact Or.inl ⟨e, rfl⟩
  | _ => simp_all [unwrap_optional, is_list_type]

theorem validateField_empty_list {fuel : Nat} {tf : PyType} {w : Value}
    (hl : is_list_type (unwrap_optional tf) = true)
    (h : validateField fuel tf (.vList []) = .ok w) : w = .vList [] := by
  rcases is_list_unwrap_cases hl with ⟨e, rfl⟩ | ⟨e, rfl⟩
  · cases fuel with
    | zero => simp [validateField] at h
    | succ fuel =>
      cases fuel with
      | zero => simp [validateField, validateList, Except.map] at h
      | succ fuel =>
        simp [validateField, validateList, Except.map] at h
        exact h.symm
  · cases fuel with
    | zero => simp [validateField] at h
    | succ fuel =>
      cases fuel with
      | zero => simp [validateField, validateList, Except.map] at h
      | succ fuel =>
        cases fuel with
        | zero => simp [validateField, validateList, Except.map] at h
        | succ fuel =>
          simp [validateField, validateList, Except.map] at h
          exact h.symm

theorem validateField_vNone_optional {fuel : Nat} {t : PyType} {w : Value}
    (h : validateField fuel (.tOptional t) .vNone = .ok w) : w = .vNone := by
  cases fuel with
  | zero => simp [validateField] at h
  | succ fuel =>
    simp [validateField] at h
    exact h.symm

theorem validateInstAux_ok {fuel : Nat} {fs : Fields}
    {kvs out : List (String × Value)}
    (h : validateInstAux fuel fs kvs = .ok out) :
    ∃ fuel2, validateFields fuel2 fs kvs = .ok out := by
  cases fuel with
  | zero => simp [validateInstAux] at h
  | succ fuel =>
    simp only [validateInstAux] at h
    split at h
    · exact ⟨fuel, h⟩
    · simp at h

theorem from_xml_tree_ok {fuel : Nat} {fs : Fields} {x : Xml} {inst' : Inst}
    (h : from_xml_tree fuel fs x = .ok inst') :
    ∃ fuel2 vals, parseFields fuel2 fs x = .ok vals ∧
      ∃ fuel3, validateFields fuel3 fs vals = .ok inst' := by
  cases fuel with
  | zero => simp [from_xml_tree] at h
  | succ fuel =>
    simp only [from_xml_tree] at h
    obtain ⟨vals, hvals, h2⟩ := except_bind_ok.mp h
    obtain ⟨fuel3, h3⟩ := validateInstAux_ok h2
    exact ⟨fuel, vals, hvals, fuel3, h3⟩

theorem dumpList_nil (fuel : Nat) : dumpList fuel [] = [] := by
  cases fuel <;> rfl

theorem dumpValue_empty_list (fuel : Nat) :
    dumpValue fuel (.vList []) = .vList [] := by
  cases fuel with
  | zero => rfl
  | succ fuel => simp [dumpValue, dumpList_nil]

theorem dumpKvs_lookup_empty_list {inst : Inst} {fuel : Nat} {f : String}
    (hv : pyLookup inst f = some (.vList [])) :
    pyLookup (dumpKvs fuel inst) f = some (.vList []) := by
  induction inst generalizing fuel with
  | nil => simp [pyLookup] at hv
  | cons p rest ih =>
    obtain ⟨n, v⟩ := p
    cases fuel with
    | zero => simpa [dumpKvs] using hv
    | succ fuel =>
      simp only [dumpKvs]
      by_cases hnf : n = f
      · subst hnf
        have hv0 : v = .vList [] := by
          simp [pyLookup, List.find?] at hv
          exact hv
        subst hv0
        simp [pyLookup, List.find?, dumpValue_empty_list]
      · have hb : (n == f) = false := by simp [hnf]
        simp only [pyLookup, List.find?] at hv ⊢
        rw [hb] at hv ⊢
        exact ih hv

theorem is_list_type_eq {u : PyType} (h : is_list_type u = true) :
    ∃ e, u = .tList e := by
  cases u with
  | tList e => exact ⟨e, rfl⟩
  | _ => simp [is_list_type] at h

/-- C6: for every record with a list-typed field `f` (optionally
Optional-wrapped) and every instance whose `f` value is the empty list,
whenever the XML round trip (`to_xml_tree` then `from_xml_tree`)
succeeds, the reconstructed instance again has the empty list — not
absent — at `f`; and likewise whenever the native-tree round trip
(`to_native_tree` then `from_native_tree`) succeeds. -/
theorem empty_list_roundtrip (F1 F2 F3 F4 : Nat) (nm f : String)
    (fs : Fields) (tf : PyType) (inst inst1 inst2 : Inst) (x : Xml)
    (hnd : (fs.map Prod.fst).Nodup)
    (hf : (f, tf) ∈ fs)
    (hl : is_list_type (unwrap_optional tf) = true)
    (hv : pyLookup inst f = some (.vList [])) :
    (to_xml_tree F1 nm fs inst = .ok x →
      from_xml_tree F2 fs x = .ok inst1 →
      pyLookup inst1 f = some (.vList [])) ∧
    (from_native_tree F3 fs (to_native_tree F4 inst) = .ok inst2 →
      pyLookup inst2 f = some (.vList [])) := by
  obtain ⟨item, hitem⟩ := is_list_type_eq hl
  have hgeta : pyGetattr inst f = .vList [] := by simp [pyGetattr, hv]
  constructor
  · intro hx hparse
    cases F1 with
    | zero => simp [to_xml_tree] at hx
    | succ F1 =>
      simp only [to_xml_tree] at hx
      obtain ⟨cs, hcs, hxe⟩ := except_map_ok.mp hx
      subst hxe
      obtain ⟨fuelE, c, hcE, hfind⟩ := emitFields_findChild nm hcs hnd hf
      rw [hitem, hgeta] at hcE
      have hc0 : c = .elem f none [] := emitField_empty_list hcE
      subst hc0
      obtain ⟨F2a, vals, hvals, F3a, hvfs⟩ := from_xml_tree_ok hparse
      obtain ⟨fuelP, v, hpf, hlook⟩ := parseFields_lookup hvals hnd hf
      rw [hitem] at hpf
      have hv0 : v = .vList [] := parseField_empty_wrapper hpf hfind rfl
      subst hv0
      obtain ⟨fuelV, v', w, hlkv, hvf, hlookout⟩ :=
        validateFields_lookup hvfs hnd hf
      rw [hlook] at hlkv
      injection hlkv with hlkv
      subst hlkv
      have hw : w = .vList [] := validateField_empty_list hl hvf
      subst hw
      exact hlookout
  · intro hn
    simp only [from_native_tree, to_native_tree] at hn
    obtain ⟨fuel2, hvfs⟩ := validateInstAux_ok hn
    obtain ⟨fuelV, v', w, hlkv, hvf, hlookout⟩ :=
      validateFields_lookup hvfs hnd hf
    have hdump : pyLookup (dumpKvs F4 inst) f = some (.vList []) :=
      dumpKvs_lookup_empty_list hv
    rw [hdump] at hlkv
    injection hlkv with hlkv
    subst hlkv
    have hw : w = .vList [] := validateField_empty_list hl hvf
    subst hw
    exact hlookout

/-- Witness for `empty_list_roundtrip`: the record `R{xs: list<int>}`
and the instance `{xs: []}` round-trip through XML and the native tree,
both reconstructing the empty list. -/
theorem empty_list_roundtrip_witness :
    pyLookup [("xs", Value.vList [])] "xs" = some (.vList []) ∧
    from_native_tree 9 [("xs", .tList .tInt)]
      (to_native_tree 9 [("xs", .vList [])]) = .ok [("xs", .vList [])] := by
  have h := empty_list_roundtrip 9 9 9 9 "R" "xs" [("xs", .tList .tInt)]
    (.tList .tInt) [("xs", .vList [])] [("xs", .vList [])]
    [("xs", .vList [])] (.elem "R" none [.elem "xs" none []])
    (by simp) (by simp) rfl rfl
  exact ⟨h.1 rfl rfl, rfl⟩

theorem parseField_missing {fuel : Nat} {f : String} {actual : PyType}
    {x : Xml} (hmiss : findChild x f = none) :
    parseField (fuel + 1) f actual x = .ok .vNone := by
  simp only [parseField]
  cases actual <;> simp [hmiss]

/-- C7: for every record with an optional field `f` and every XML
document whose root has no child named `f`, the per-field parse of `f`
succeeds with `None` (it raises nothing on account of `f`), and whenever
`from_xml_tree` succeeds on the whole document the resulting instance
has `f` absent (`None`). -/
theorem missing_optional_field_absent (F : Nat) (f : String) (fs : Fields)
    (t : PyType) (x : Xml) (inst' : Inst)
    (hnd : (fs.map Prod.fst).Nodup)
    (hf : (f, .tOptional t) ∈ fs)
    (hmiss : findChild x f = none) :
    (∀ fuel, parseField (fuel + 1) f (unwrap_optional (.tOptional t)) x =
      .ok .vNone) ∧
    (from_xml_tree F fs x = .ok inst' → pyLookup inst' f = some .vNone) := by
  constructor
  · intro fuel
    exact parseField_missing hmiss
  · intro h
    obtain ⟨F2a, vals, hvals, F3a, hvfs⟩ := from_xml_tree_ok h
    obtain ⟨fuelP, v, hpf, hlook⟩ := parseFields_lookup hvals hnd hf
    cases fuelP with
    | zero => simp [parseField] at hpf
    | succ fuelP =>
      rw [parseField_missing hmiss] at hpf
      injection hpf with hpf
      subst hpf
      obtain ⟨fuelV, v', w, hlkv, hvf, hlookout⟩ :=
        validateFields_lookup hvfs hnd hf
      rw [hlook] at hlkv
      injection hlkv with hlkv
      subst hlkv
      have hw : w = .vNone := validateField_vNone_optional hvf
      subst hw
      exact hlookout

/-- Witness for `missing_optional_field_absent`: `R{a: optional int}`
parsed from `<R></R>` yields `a` absent. -/
theorem missing_optional_field_absent_witness :
    pyLookup [("a", Value.vNone)] "a" = some .vNone ∧
    from_xml_tree 9 [("a", .tOptional .tInt)] (.elem "R" none []) =
      .ok [("a", .vNone)] := by
  have h := missing_optional_field_absent 9 "a" [("a", .tOptional .tInt)]
    .tInt (.elem "R" none []) [("a", .vNone)] (by simp) (by simp) rfl
  exact ⟨h.2 rfl, rfl⟩

/-- C10: for a list field `f` whose wrapper element is present, (a) if
any child's tag differs from the declared element type's `__name__`,
`from_xml_tree` raises; (b) if `from_xml_tree` succeeds, every child tag
equals the element type's name; (c) when the first child's tag differs,
the field parse raises precisely the `ValueError` naming the expected
and the found tag. -/
theorem list_item_tag_mismatch (F : Nat) (f : String) (fs : Fields)
    (tf item : PyType) (x w : Xml) (inst' : Inst)
    (hnd : (fs.map Prod.fst).Nodup)
    (hf : (f, tf) ∈ fs)
    (hu : unwrap_optional tf = .tList item)
    (hw : findChild x f = some w) :
    ((∃ c ∈ Xml.childrenOf w, Xml.tagOf c ≠ typeName item) →
      ∃ msg, from_xml_tree F fs x = .error msg) ∧
    (from_xml_tree F fs x = .ok inst' →
      ∀ c ∈ Xml.childrenOf w, Xml.tagOf c = typeName item) ∧
    (∀ fuel c rest, Xml.childrenOf w = c :: rest →
      Xml.tagOf c ≠ typeName item →
      parseField (fuel + 2) f (.tList item) x =
        .error ("Expected item of type " ++ typeName item ++ " in field " ++
          f ++ ", but found " ++ Xml.tagOf c)) := by
  have htags : ∀ inst'', from_xml_tree F fs x = .ok inst'' →
      ∀ c ∈ Xml.childrenOf w, Xml.tagOf c = typeName item := by
    intro inst'' h c hc
    obtain ⟨F2a, vals, hvals, F3a, hvfs⟩ := from_xml_tree_ok h
    obtain ⟨fuelP, v, hpf, hlook⟩ := parseFields_lookup hvals hnd hf
    rw [hu] at hpf
    cases fuelP with
    | zero => simp [parseField] at hpf
    | succ fuelP =>
      simp only [parseField, hw] at hpf
      obtain ⟨vs, hvs, _⟩ := except_map_ok.mp hpf
      exact parseItems_ok_tags hvs c hc
  refine ⟨?_, htags inst', ?_⟩
  · rintro ⟨c, hc, hne⟩
    cases hres : from_xml_tree F fs x with
    | error m => exact ⟨m, rfl⟩
    | ok out => exact absurd (htags out hres c hc) hne
  · intro fuel c rest hcr hne
    simp only [parseField, hw, hcr]
    rw [parseItems_mismatch_error hne]
    simp [Except.map]

/-- Witness for `list_item_tag_mismatch`: `R{xs: list<int>}` with a
`<str>` child inside `<xs>` raises the tag `ValueError`. -/
theorem list_item_tag_mismatch_witness :
    parseField 2 "xs" (.tList .tInt)
      (.elem "R" none [.elem "xs" none [.elem "str" (some "a") []]]) =
      .error "Expected item of type int in field xs, but found str" ∧
    ∃ msg, from_xml_tree 9 [("xs", .tList .tInt)]
      (.elem "R" none [.elem "xs" none [.elem "str" (some "a") []]]) =
      .error msg := by
  have h := list_item_tag_mismatch 9 "xs" [("xs", .tList .tInt)]
    (.tList .tInt) .tInt
    (.elem "R" none [.elem "xs" none [.elem "str" (some "a") []]])
    (.elem "xs" none [.elem "str" (some "a") []]) []
    (by simp) (by simp) rfl rfl
  refine ⟨?_, h.1 ⟨.elem "str" (some "a") [], by simp [Xml.childrenOf],
    by decide⟩⟩
  have h3 := h.2.2 0 (.elem "str" (some "a") []) [] rfl (by decide)
  simpa using h3

theorem xsd_entries (fuel : Nat) :
    (∀ nm fs acc out, process_model fuel nm fs acc = .ok out →
      ∀ e ∈ out, e ∈ acc ∨
        ∃ gs, (e.1, gs) ∈ reachM nm fs ∧ e.2 = mkCt e.1 gs) ∧
    (∀ fs acc out, process_fields fuel fs acc = .ok out →
      ∀ e ∈ out, e ∈ acc ∨
        ∃ gs, (e.1, gs) ∈ reachF fs ∧ e.2 = mkCt e.1 gs) ∧
    (∀ t acc out, process_field_type fuel t acc = .ok out →
      ∀ e ∈ out, e ∈ acc ∨
        ∃ gs, (e.1, gs) ∈ reachT t ∧ e.2 = mkCt e.1 gs) := by
  induction fuel with
  | zero =>
    refine ⟨?_, ?_, ?_⟩
    · intro nm fs acc out h; simp [process_model] at h
    · intro fs acc out h; simp [process_fields] at h
    · intro t acc out h; simp [process_field_type] at h
  | succ fuel ih =>
    obtain ⟨ihM, ihF, ihT⟩ := ih
    refine ⟨?_, ?_, ?_⟩
    · intro nm fs acc out h e he
      simp only [process_model] at h
      split at h
      · simp at h; subst h; exact Or.inl he
      · obtain ⟨acc2, hacc2, h2⟩ := except_bind_ok.mp h
        simp at h2
        subst h2
        rcases List.mem_append.mp he with he1 | he2
        · rcases ihF fs acc acc2 hacc2 e he1 with h3 | ⟨gs, hg, hct⟩
          · exact Or.inl h3
          · exact Or.inr ⟨gs, List.mem_cons.mpr (Or.inr hg), hct⟩
        · simp at he2
          subst he2
          exact Or.inr ⟨fs, List.mem_cons.mpr (Or.inl rfl), rfl⟩
    · intro fs acc out h e he
      cases fs with
      | nil =>
        cases fuel <;> simp [process_fields] at h <;> subst h <;>
          exact Or.inl he
      | cons p rest =>
        obtain ⟨n, t⟩ := p
        simp only [process_fields] at h
        obtain ⟨acc2, hacc2, h2⟩ := except_bind_ok.mp h
        rcases ihF rest acc2 out h2 e he with h3 | ⟨gs, hg, hct⟩
        · rcases ihT t acc acc2 hacc2 e h3 with h4 | ⟨gs, hg, hct⟩
          · exact Or.inl h4
          · exact Or.inr ⟨gs, by simp [reachF]; exact Or.inl hg, hct⟩
        · exact Or.inr ⟨gs, by simp [reachF]; exact Or.inr hg, hct⟩
    · intro t acc out h e he
      simp only [process_field_type] at h
      cases hfr : fieldRecord t with
      | none => rw [hfr] at h; simp at h; subst h; exact Or.inl he
      | some r =>
        obtain ⟨nm2, fs2⟩ := r
        rw [hfr] at h
        rcases ihM nm2 fs2 acc out h e he with h3 | ⟨gs, hg, hct⟩
        · exact Or.inl h3
        · refine Or.inr ⟨gs, ?_, hct⟩
          rw [reachT_eq_fieldRecord, hfr]
          simpa [reachM] using hg

theorem xsdElemFor_elName (n : String) (t : PyType) :
    (xsdElemFor n t).elName = n := by
  simp only [xsdElemFor]
  repeat' split
  all_goals rfl

theorem xsdElemFor_minOccurs (n : String) (t : PyType) :
    (xsdElemFor n t).minOccurs = some "0" := by
  simp only [xsdElemFor]
  repeat' split
  all_goals rfl

theorem xsdElemFor_list_maxOccurs (n : String) (t : PyType)
    (hl : is_list_type (if is_optional_type t then unwrap_optional t else t) =
      true) :
    (xsdElemFor n t).maxOccurs = some "unbounded" := by
  simp only [xsdElemFor]
  repeat' split
  all_goals first | rfl | simp_all

/-- C8: in the `to_xsd` output, every emitted complex type is the
`mkCt` of some record reachable from the root — a sequence of exactly
one `xs:element` per field in field order — and for every field the
element is named after the field, carries `minOccurs="0"` (so in
particular every Optional field does), and carries
`maxOccurs="unbounded"` exactly when the (optionally Optional-wrapped)
descriptor is a `List`. -/
theorem xsd_field_element_shape (fuel : Nat) (nm : String) (fs : Fields)
    (out : XsdAcc) (hok : to_xsd_types fuel nm fs = .ok out) :
    (∀ e ∈ out, ∃ gs, (e.1, gs) ∈ reachM nm fs ∧
      e.2 = mkCt e.1 gs ∧
      e.2.seq = gs.map (fun p => xsdElemFor p.1 p.2)) ∧
    (∀ n t, (xsdElemFor n t).elName = n) ∧
    (∀ n t, (xsdElemFor n t).minOccurs = some "0") ∧
    (∀ n t,
      is_list_type (if is_optional_type t then unwrap_optional t else t) =
        true →
      (xsdElemFor n t).maxOccurs = some "unbounded") := by
  refine ⟨?_, xsdElemFor_elName, xsdElemFor_minOccurs,
    xsdElemFor_list_maxOccurs⟩
  intro e he
  rcases (xsd_entries fuel).1 nm fs [] out hok e he with h | ⟨gs, hg, hct⟩
  · simp at h
  · exact ⟨gs, hg, hct, by rw [hct]; rfl⟩

/-- Witness for `xsd_field_element_shape` on `Person{name: string}`
plus the attribute facts at an `Optional[List[int]]` field. -/
theorem xsd_field_element_shape_witness :
    (xsdElemFor "xs" (.tOptional (.tList .tInt))).minOccurs = some "0" ∧
    (xsdElemFor "xs" (.tOptional (.tList .tInt))).maxOccurs =
      some "unbounded" ∧
    (∃ gs, (("Person", gs) ∈
        reachM "Person" [("name", PyType.tStr)]) ∧
      (XsdComplexType.mk "PersonType" [xsdElemFor "name" .tStr]) =
        mkCt "Person" gs) := by
  have h := xsd_field_element_shape 5 "Person" [("name", PyType.tStr)]
    [("Person", ⟨"PersonType", [xsdElemFor "name" .tStr]⟩)] rfl
  refine ⟨h.2.2.1 "xs" (.tOptional (.tList .tInt)),
    h.2.2.2 "xs" (.tOptional (.tList .tInt)) rfl, ?_⟩
  obtain ⟨gs, hg, hct, _⟩ :=
    h.1 ("Person", ⟨"PersonType", [xsdElemFor "name" .tStr]⟩) (by simp)
  exact ⟨gs, hg, hct⟩

theorem mem_fields_sizeOf {n : String} {t : PyType} {fs : Fields}
    (h : (n, t) ∈ fs) : sizeOf t < sizeOf fs := by
  have h1 := List.sizeOf_lt_of_mem h
  simp only [Prod.mk.sizeOf_spec] at h1
  omega

theorem fieldRecord_sizeOf {t : PyType} {nm2 : String} {fs2 : Fields}
    (h : fieldRecord t = some (nm2, fs2)) : sizeOf fs2 < sizeOf t := by
  cases t with
  | tModel nm fs =>
    simp only [fieldRecord, is_optional_type, unwrap_optional, is_list_type,
      unwrap_list, Option.some.injEq, Prod.mk.injEq] at h
    rcases h with ⟨rfl, rfl⟩
    simp <;> omega
  | tOptional i =>
    cases i with
    | tModel nm fs =>
      simp only [fieldRecord, is_optional_type, unwrap_optional, is_list_type,
        unwrap_list, Option.some.injEq, Prod.mk.injEq] at h
      rcases h with ⟨rfl, rfl⟩
      simp <;> omega
    | tList e =>
      cases e with
      | tModel nm fs =>
        simp only [fieldRecord, is_optional_type, unwrap_optional,
          is_list_type, unwrap_list, Option.some.injEq, Prod.mk.injEq] at h
        rcases h with ⟨rfl, rfl⟩
        simp <;> omega
      | tStr => simp [fieldRecord, is_optional_type, unwrap_optional, is_list_type, unwrap_list] at h
      | tInt => simp [fieldRecord, is_optional_type, unwrap_optional, is_list_type, unwrap_list] at h
      | tFloat => simp [fieldRecord, is_optional_type, unwrap_optional, is_list_type, unwrap_list] at h
      | tBool => simp [fieldRecord, is_optional_type, unwrap_optional, is_list_type, unwrap_list] at h
      | fixed k => simp [fieldRecord, is_optional_type, unwrap_optional, is_list_type, unwrap_list] at h
      | tList e2 => simp [fieldRecord, is_optional_type, unwrap_optional, is_list_type, unwrap_list] at h
      | tOptional i2 => simp [fieldRecord, is_optional_type, unwrap_optional, is_list_type, unwrap_list] at h
    | tStr => simp [fieldRecord, is_optional_type, unwrap_optional, is_list_type, unwrap_list] at h
    | tInt => simp [fieldRecord, is_optional_type, unwrap_optional, is_list_type, unwrap_list] at h
    | tFloat => simp [fieldRecord, is_optional_type, unwrap_optional, is_list_type, unwrap_list] at h
    | tBool => simp [fieldRecord, is_optional_type, unwrap_optional, is_list_type, unwrap_list] at h
    | fixed k => simp [fieldRecord, is_optional_type, unwrap_optional, is_list_type, unwrap_list] at h
    | tOptional i2 => simp [fieldRecord, is_optional_type, unwrap_optional, is_list_type, unwrap_list] at h
  | tList e =>
    cases e with
    | tModel nm fs =>
      simp only [fieldRecord, is_optional_type, unwrap_optional, is_list_type,
        unwrap_list, Option.some.injEq, Prod.mk.injEq] at h
      rcases h with ⟨rfl, rfl⟩
      simp <;> omega
    | tStr => simp [fieldRecord, is_optional_type, unwrap_optional, is_list_type, unwrap_list] at h
    | tInt => simp [fieldRecord, is_optional_type, unwrap_optional, is_list_type, unwrap_list] at h
    | tFloat => simp [fieldRecord, is_optional_type, unwrap_optional, is_list_type, unwrap_list] at h
    | tBool => simp [fieldRecord, is_optional_type, unwrap_optional, is_list_type, unwrap_list] at h
    | fixed k => simp [fieldRecord, is_optional_type, unwrap_optional, is_list_type, unwrap_list] at h
    | tList e2 => simp [fieldRecord, is_optional_type, unwrap_optional, is_list_type, unwrap_list] at h
    | tOptional i2 => simp [fieldRecord, is_optional_type, unwrap_optional, is_list_type, unwrap_list] at h
  | tStr => simp [fieldRecord, is_optional_type, unwrap_optional, is_list_type, unwrap_list] at h
  | tInt => simp [fieldRecord, is_optional_type, unwrap_optional, is_list_type, unwrap_list] at h
  | tFloat => simp [fieldRecord, is_optional_type, unwrap_optional, is_list_type, unwrap_list] at h
  | tBool => simp [fieldRecord, is_optional_type, unwrap_optional, is_list_type, unwrap_list] at h
  | fixed k => simp [fieldRecord, is_optional_type, unwrap_optional, is_list_type, unwrap_list] at h

theorem reachT_sub {n : String} {t : PyType} {fs : Fields}
    (h : (n, t) ∈ fs) : ∀ q ∈ reachT t, q ∈ reachF fs := by
  induction fs with
  | nil => simp at h
  | cons p rest ih =>
    intro q hq
    rcases List.mem_cons.mp h with h1 | h2
    · subst h1
      simp only [reachF]
      exact List.mem_append.mpr (Or.inl hq)
    · obtain ⟨n1, t1⟩ := p
      simp only [reachF]
      exact List.mem_append.mpr (Or.inr (ih h2 q hq))

theorem reachF_mem_decompose {fs : Fields} {b : String} {gb : Fields}
    (h : (b, gb) ∈ reachF fs) :
    ∃ n t, (n, t) ∈ fs ∧ (b, gb) ∈ reachT t := by
  induction fs with
  | nil => simp [reachF] at h
  | cons p rest ih =>
    obtain ⟨n, t⟩ := p
    simp only [reachF] at h
    rcases List.mem_append.mp h with h1 | h2
    · exact ⟨n, t, List.mem_cons.mpr (Or.inl rfl), h1⟩
    · obtain ⟨n1, t1, hnt, hT⟩ := ih h2
      exact ⟨n1, t1, List.mem_cons.mpr (Or.inr hnt), hT⟩

theorem reachT_mem {t : PyType} {b : String} {gb : Fields}
    (h : (b, gb) ∈ reachT t) :
    ∃ nm2 fs2, fieldRecord t = some (nm2, fs2) ∧
      ((b, gb) = (nm2, fs2) ∨ (b, gb) ∈ reachF fs2) := by
  rw [reachT_eq_fieldRecord] at h
  cases hfr : fieldRecord t with
  | none => rw [hfr] at h; simp at h
  | some r =>
    obtain ⟨nm2, fs2⟩ := r
    rw [hfr] at h
    exact ⟨nm2, fs2, rfl, List.mem_cons.mp h⟩

theorem reachF_sizeOf {fs : Fields} {b : String} {gb : Fields}
    (h : (b, gb) ∈ reachF fs) : sizeOf gb < sizeOf fs := by
  obtain ⟨n, t, hnt, hT⟩ := reachF_mem_decompose h
  obtain ⟨c, gc, hfr, hcase⟩ := reachT_mem hT
  have h1 : sizeOf gc < sizeOf t := fieldRecord_sizeOf hfr
  have h2 : sizeOf t < sizeOf fs := mem_fields_sizeOf hnt
  rcases hcase with heq | hmem
  · obtain ⟨_, h4⟩ := Prod.mk.injEq .. ▸ heq
    subst h4
    omega
  · have h3 := reachF_sizeOf hmem
    omega
termination_by sizeOf fs
decreasing_by simp_wf; omega

theorem reachF_trans {ga : Fields} {b : String} {gb : Fields}
    {q : String × Fields}
    (h1 : (b, gb) ∈ reachF ga) (h2 : q ∈ reachF gb) : q ∈ reachF ga := by
  obtain ⟨n, t, hnt, hT⟩ := reachF_mem_decompose h1
  obtain ⟨c, gc, hfr, hcase⟩ := reachT_mem hT
  have hsz1 : sizeOf gc < sizeOf t := fieldRecord_sizeOf hfr
  have hsz2 : sizeOf t < sizeOf ga := mem_fields_sizeOf hnt
  have hsub : ∀ r ∈ reachT t, r ∈ reachF ga := reachT_sub hnt
  have hTeq : reachT t = (c, gc) :: reachF gc := by
    rw [reachT_eq_fieldRecord, hfr]
  rcases hcase with heq | hmem
  · obtain ⟨h3, h4⟩ := Prod.mk.injEq .. ▸ heq
    subst h3; subst h4
    exact hsub q (by rw [hTeq]; exact List.mem_cons.mpr (Or.inr h2))
  · have hq : q ∈ reachF gc := reachF_trans hmem h2
    exact hsub q (by rw [hTeq]; exact List.mem_cons.mpr (Or.inr hq))
termination_by sizeOf ga
decreasing_by simp_wf; omega

theorem reach_trans {a : String} {ga : Fields} {b : String} {gb : Fields}
    {q : String × Fields}
    (h1 : (b, gb) ∈ reachM a ga) (h2 : q ∈ reachM b gb) :
    q ∈ reachM a ga := by
  simp only [reachM] at h1 h2 ⊢
  rcases List.mem_cons.mp h1 with he | hm
  · obtain ⟨h3, h4⟩ := Prod.mk.injEq .. ▸ he.symm
    subst h3; subst h4
    exact h2
  · rcases List.mem_cons.mp h2 with he2 | hm2
    · subst he2
      exact List.mem_cons.mpr (Or.inr hm)
    · exact List.mem_cons.mpr (Or.inr (reachF_trans hm hm2))

/-- The keys of the `complex_types` dict, in insertion order. -/
def xsdNames (acc : XsdAcc) : List String := acc.map Prod.fst

/-- Closure of an accumulator under reachability, relative to the root
schema: once a reachable record's name is in `complex_types`, so are the
names of all records reachable from it (the state `process_model` leaves
behind after finishing a record). -/
def xsdClosed (nm0 : String) (fs0 : Fields) (acc : XsdAcc) : Prop :=
  ∀ n gs, (n, gs) ∈ reachM nm0 fs0 → n ∈ xsdNames acc →
    ∀ q ∈ reachM n gs, q.1 ∈ xsdNames acc

theorem xsd_inv (nm0 : String) (fs0 : Fields)
    (hcons : ∀ p ∈ reachM nm0 fs0, ∀ q ∈ reachM nm0 fs0,
      p.1 = q.1 → p.2 = q.2) :
    ∀ fuel : Nat,
    (∀ nm fs acc out, process_model fuel nm fs acc = .ok out →
      (nm, fs) ∈ reachM nm0 fs0 →
      (xsdNames acc).Nodup → xsdClosed nm0 fs0 acc →
      (xsdNames out).Nodup ∧ xsdClosed nm0 fs0 out ∧
      (∀ q ∈ reachM nm fs, q.1 ∈ xsdNames out) ∧
      (∀ x ∈ xsdNames out,
        x ∈ xsdNames acc ∨ ∃ q ∈ reachM nm fs, q.1 = x) ∧
      (∀ x ∈ xsdNames acc, x ∈ xsdNames out)) ∧
    (∀ fs acc out, process_fields fuel fs acc = .ok out →
      (∀ q ∈ reachF fs, q ∈ reachM nm0 fs0) →
      (xsdNames acc).Nodup → xsdClosed nm0 fs0 acc →
      (xsdNames out).Nodup ∧ xsdClosed nm0 fs0 out ∧
      (∀ q ∈ reachF fs, q.1 ∈ xsdNames out) ∧
      (∀ x ∈ xsdNames out,
        x ∈ xsdNames acc ∨ ∃ q ∈ reachF fs, q.1 = x) ∧
      (∀ x ∈ xsdNames acc, x ∈ xsdNames out)) ∧
    (∀ t acc out, process_field_type fuel t acc = .ok out →
      (∀ q ∈ reachT t, q ∈ reachM nm0 fs0) →
      (xsdNames acc).Nodup → xsdClosed nm0 fs0 acc →
      (xsdNames out).Nodup ∧ xsdClosed nm0 fs0 out ∧
      (∀ q ∈ reachT t, q.1 ∈ xsdNames out) ∧
      (∀ x ∈ xsdNames out,
        x ∈ xsdNames acc ∨ ∃ q ∈ reachT t, q.1 = x) ∧
      (∀ x ∈ xsdNames acc, x ∈ xsdNames out)) := by
  intro fuel
  induction fuel with
  | zero =>
    refine ⟨?_, ?_, ?_⟩
    · intro nm fs acc out h; simp [process_model] at h
    · intro fs acc out h; simp [process_fields] at h
    · intro t acc out h; simp [process_field_type] at h
  | succ fuel ih =>
    obtain ⟨ihM, ihF, ihT⟩ := ih
    refine ⟨?_, ?_, ?_⟩
    · -- process_model
      intro nm fs acc out h hMem hND hCL
      have hUall : ∀ q ∈ reachM nm fs, q ∈ reachM nm0 fs0 :=
        fun q hq => reach_trans hMem hq
      simp only [process_model] at h
      split at h
      case isTrue hc =>
        have hout : acc = out := by injection h
        subst hout
        have hnm : nm ∈ xsdNames acc := by simpa [xsdNames] using hc
        exact ⟨hND, hCL, fun q hq => hCL nm fs hMem hnm q hq,
          fun x hx => Or.inl hx, fun x hx => hx⟩
      case isFalse hc =>
        obtain ⟨acc2, h1, h2⟩ := except_bind_ok.mp h
        have hout : out = acc2 ++ [(nm, mkCt nm fs)] := by
          injection h2 with h3; exact h3.symm
        have hFreach : ∀ q ∈ reachF fs, q ∈ reachM nm0 fs0 :=
          fun q hq => hUall q (List.mem_cons.mpr (Or.inr hq))
        obtain ⟨nd2, cl2, comp2, gr2, mono2⟩ :=
          ihF fs acc acc2 h1 hFreach hND hCL
        have hnm_notin_acc : nm ∉ xsdNames acc := by
          simpa [xsdNames] using hc
        have hnm_notin : nm ∉ xsdNames acc2 := by
          intro hmem
          rcases gr2 nm hmem with hin | ⟨q, hq, hq1⟩
          · exact hnm_notin_acc hin
          · obtain ⟨qn, qg⟩ := q
            simp only at hq1
            have hqU : (qn, qg) ∈ reachM nm0 fs0 := hFreach _ hq
            have h5 := hcons (qn, qg) hqU (nm, fs) hMem (by rw [hq1])
            simp only at h5
            have hqf : ((qn : String), (qg : Fields)) = (nm, fs) := by
              rw [hq1, h5]
            rw [hqf] at hq
            have := reachF_sizeOf hq
            omega
        have hnames_out : xsdNames out = xsdNames acc2 ++ [nm] := by
          subst hout; simp [xsdNames]
        refine ⟨?_, ?_, ?_, ?_, ?_⟩
        · rw [hnames_out, List.nodup_append]
          refine ⟨nd2, List.nodup_singleton nm, ?_⟩
          intro x hx hx2
          rw [List.mem_singleton] at hx2
          subst hx2
          exact hnm_notin hx
        · intro n gs hU hmemn q hq
          rw [hnames_out] at hmemn ⊢
          rcases List.mem_append.mp hmemn with hin2 | hisnm
          · exact List.mem_append.mpr (Or.inl (cl2 n gs hU hin2 q hq))
          · rw [List.mem_singleton] at hisnm
            subst hisnm
            have hgs : gs = fs := by
              have := hcons (n, gs) hU (n, fs) hMem rfl
              exact this
            subst hgs
            rcases List.mem_cons.mp hq with he | hm
            · subst he
              exact List.mem_append.mpr (Or.inr (by simp))
            · exact List.mem_append.mpr (Or.inl (comp2 q hm))
        · intro q hq
          rw [hnames_out]
          rcases List.mem_cons.mp hq with he | hm
          · subst he
            exact List.mem_append.mpr (Or.inr (by simp))
          · exact List.mem_append.mpr (Or.inl (comp2 q hm))
        · intro x hx
          rw [hnames_out] at hx
          rcases List.mem_append.mp hx with hin2 | hisnm
          · rcases gr2 x hin2 with hin | ⟨q, hq, hq1⟩
            · exact Or.inl hin
            · exact Or.inr ⟨q, List.mem_cons.mpr (Or.inr hq), hq1⟩
          · rw [List.mem_singleton] at hisnm
            exact Or.inr ⟨(nm, fs), List.mem_cons_self _ _, hisnm.symm⟩
        · intro x hx
          rw [hnames_out]
          exact List.mem_append.mpr (Or.inl (mono2 x hx))
    · -- process_fields
      intro fs acc out h hUF hND hCL
      cases fs with
      | nil =>
        simp only [process_fields] at h
        have hout : out = acc := by injection h with h2; exact h2.symm
        subst hout
        refine ⟨hND, hCL, ?_, fun x hx => Or.inl hx, fun x hx => hx⟩
        intro q hq
        simp [reachF] at hq
      | cons p rest =>
        obtain ⟨n, t⟩ := p
        simp only [process_fields] at h
        obtain ⟨acc2, h1, h2⟩ := except_bind_ok.mp h
        have hUT : ∀ q ∈ reachT t, q ∈ reachM nm0 fs0 := by
          intro q hq
          exact hUF q (by simp only [reachF]; exact
            List.mem_append.mpr (Or.inl hq))
        have hUrest : ∀ q ∈ reachF rest, q ∈ reachM nm0 fs0 := by
          intro q hq
          exact hUF q (by simp only [reachF]; exact
            List.mem_append.mpr (Or.inr hq))
        obtain ⟨ndA, clA, compA, grA, monoA⟩ :=
          ihT t acc acc2 h1 hUT hND hCL
        obtain ⟨ndB, clB, compB, grB, monoB⟩ :=
          ihF rest acc2 out h2 hUrest ndA clA
        refine ⟨ndB, clB, ?_, ?_, ?_⟩
        · intro q hq
          simp only [reachF] at hq
          rcases List.mem_append.mp hq with hT | hR
          · exact monoB _ (compA q hT)
          · exact compB q hR
        · intro x hx
          rcases grB x hx with hin2 | ⟨q, hq, hq1⟩
          · rcases grA x hin2 with hin | ⟨q, hq, hq1⟩
            · exact Or.inl hin
            · exact Or.inr ⟨q, by
                simp only [reachF]
                exact List.mem_append.mpr (Or.inl hq), hq1⟩
          · exact Or.inr ⟨q, by
              simp only [reachF]
              exact List.mem_append.mpr (Or.inr hq), hq1⟩
        · exact fun x hx => monoB x (monoA x hx)
    · -- process_field_type
      intro t acc out h hUT hND hCL
      cases hfr : fieldRecord t with
      | none =>
        simp only [process_field_type, hfr] at h
        have hout : out = acc := by injection h with h2; exact h2.symm
        subst hout
        have hTnil : reachT t = [] := by rw [reachT_eq_fieldRecord, hfr]
        refine ⟨hND, hCL, ?_, fun x hx => Or.inl hx, fun x hx => hx⟩
        intro q hq
        rw [hTnil] at hq
        simp at hq
      | some r =>
        obtain ⟨nm2, fs2⟩ := r
        simp only [process_field_type, hfr] at h
        have hTeq : reachT t = (nm2, fs2) :: reachF fs2 := by
          rw [reachT_eq_fieldRecord, hfr]
        have hMem2 : (nm2, fs2) ∈ reachM nm0 fs0 :=
          hUT _ (by rw [hTeq]; exact List.mem_cons_self _ _)
        obtain ⟨nd, cl, comp, gr, mono⟩ :=
          ihM nm2 fs2 acc out h hMem2 hND hCL
        refine ⟨nd, cl, ?_, ?_, mono⟩
        · intro q hq
          rw [hTeq] at hq
          exact comp q hq
        · intro x hx
          rcases gr x hx with hin | ⟨q, hq, hq1⟩
          · exact Or.inl hin
          · exact Or.inr ⟨q, by rw [hTeq]; exact hq, hq1⟩

theorem xsd_fuel_sufficient : ∀ fuel : Nat,
    (∀ nm fs acc, 2 * sizeOf fs + 2 ≤ fuel →
      ∃ out, process_model fuel nm fs acc = .ok out) ∧
    (∀ fs acc, 2 * sizeOf fs + 1 ≤ fuel →
      ∃ out, process_fields fuel fs acc = .ok out) ∧
    (∀ t acc, 2 * sizeOf t + 1 ≤ fuel →
      ∃ out, process_field_type fuel t acc = .ok out) := by
  intro fuel
  induction fuel with
  | zero =>
    refine ⟨?_, ?_, ?_⟩ <;> intros <;> omega
  | succ fuel ih =>
    obtain ⟨ihM, ihF, ihT⟩ := ih
    refine ⟨?_, ?_, ?_⟩
    · intro nm fs acc hle
      simp only [process_model]
      split
      · exact ⟨acc, rfl⟩
      · obtain ⟨acc2, h1⟩ := ihF fs acc (by omega)
        exact ⟨acc2 ++ [(nm, mkCt nm fs)], by rw [h1]; rfl⟩
    · intro fs acc hle
      cases fs with
      | nil => exact ⟨acc, rfl⟩
      | cons p rest =>
        obtain ⟨n, t⟩ := p
        have hsz : sizeOf ((n, t) :: rest) =
            1 + (1 + sizeOf n + sizeOf t) + sizeOf rest := by
          simp
          try omega
        obtain ⟨acc2, h1⟩ := ihT t acc (by omega)
        obtain ⟨out, h2⟩ := ihF rest acc2 (by omega)
        refine ⟨out, ?_⟩
        simp only [process_fields, h1]
        exact h2
    · intro t acc hle
      cases hfr : fieldRecord t with
      | none =>
        simp only [process_field_type, hfr]
        exact ⟨acc, rfl⟩
      | some r =>
        obtain ⟨nm2, fs2⟩ := r
        have hsz := fieldRecord_sizeOf hfr
        obtain ⟨out, h1⟩ := ihM nm2 fs2 acc (by omega)
        refine ⟨out, ?_⟩
        simp only [process_field_type, hfr]
        exact h1

/-- C3: for every record-type DAG whose nested record types have pairwise
distinct names (formalised: any two reachable records with the same name
have the same fields), `to_xsd` emits exactly one complexType per
distinct record type reachable from the root — the emitted names are
duplicate-free and are exactly the reachable record names, each entry
being that record's complexType — even when a record is referenced from
two or more parent fields; and the emission terminates on such shared
sub-schemas (an explicit recursion budget of `2 * sizeOf fs + 2`
suffices). -/
theorem xsd_memoizes_shared_records (fuel : Nat) (nm : String)
    (fs : Fields) (out : XsdAcc)
    (hcons : ∀ p ∈ reachM nm fs, ∀ q ∈ reachM nm fs,
      p.1 = q.1 → p.2 = q.2)
    (hok : to_xsd_types fuel nm fs = .ok out) :
    (xsdNames out).Nodup ∧
    (∀ n, n ∈ xsdNames out ↔ ∃ gs, (n, gs) ∈ reachM nm fs) ∧
    (∀ e ∈ out, ∃ gs, (e.1, gs) ∈ reachM nm fs ∧ e.2 = mkCt e.1 gs) ∧
    ∃ out2, to_xsd_types (2 * sizeOf fs + 2) nm fs = .ok out2 := by
  simp only [to_xsd_types] at hok
  have hroot : (nm, fs) ∈ reachM nm fs := List.mem_cons_self _ _
  have hND0 : (xsdNames ([] : XsdAcc)).Nodup := List.nodup_nil
  have hCL0 : xsdClosed nm fs [] := by
    intro n gs _ hmem
    simp [xsdNames] at hmem
  obtain ⟨nd, cl, comp, gr, mono⟩ :=
    (xsd_inv nm fs hcons fuel).1 nm fs [] out hok hroot hND0 hCL0
  refine ⟨nd, ?_, ?_, ?_⟩
  · intro n
    constructor
    · intro hn
      rcases gr n hn with hin | ⟨q, hq, hq1⟩
      · simp [xsdNames] at hin
      · obtain ⟨qn, qg⟩ := q
        simp only at hq1
        subst hq1
        exact ⟨qg, hq⟩
    · intro hgs
      obtain ⟨gs, hgs⟩ := hgs
      exact comp (n, gs) hgs
  · intro e he
    rcases (xsd_entries fuel).1 nm fs [] out hok e he with hin | h
    · simp at hin
    · exact h
  · obtain ⟨out2, h2⟩ :=
      (xsd_fuel_sufficient (2 * sizeOf fs + 2)).1 nm fs [] (le_refl _)
    exact ⟨out2, by simpa [to_xsd_types] using h2⟩

/-- A record with two fields of the same nested record type. -/
def addrFields : Fields := [("street", .tStr), ("zip", .tInt)]

def person2Fields : Fields :=
  [("name", .tStr),
   ("home", .tModel "Address" addrFields),
   ("work", .tModel "Address" addrFields)]

/-- The complex types `to_xsd` emits for `person2Fields`: one
`AddressType` (not two) and one `Person2Type`. -/
def p2Out : XsdAcc :=
  [("Address", mkCt "Address" addrFields),
   ("Person2", mkCt "Person2" person2Fields)]

theorem xsd_memoizes_shared_records_witness :
    (xsdNames p2Out).Nodup ∧
    (∀ n, n ∈ xsdNames p2Out ↔
      ∃ gs, (n, gs) ∈ reachM "Person2" person2Fields) ∧
    (∀ e ∈ p2Out, ∃ gs,
      (e.1, gs) ∈ reachM "Person2" person2Fields ∧ e.2 = mkCt e.1 gs) ∧
    ∃ out2, to_xsd_types (2 * sizeOf person2Fields + 2)
      "Person2" person2Fields = .ok out2 :=
  xsd_memoizes_shared_records 20 "Person2" person2Fields p2Out
    (by
      intro p hp q hq
      simp only [reachM, reachF, reachT, person2Fields, addrFields,
        List.mem_cons, List.mem_append, List.not_mem_nil, or_false,
        false_or, List.mem_singleton] at hp hq
      rcases hp with rfl | rfl | rfl <;> rcases hq with rfl | rfl | rfl <;>
        simp)
    rfl
